import Mathlib

/-!
# Dictionary (fixed-capacity hash table with linear probing)

Shallow embedding of `src/Dictionary.cpp`.

* `CAPACITY` is the constant of `Dictionary.h` (not among the sources); it is a
  parameter of every definition.
* The element type `Profile` (`Profile.h`, not among the sources) is a type
  parameter `α` together with the three operations the dictionary uses on it,
  bundled in `ProfileOps`.
* `unsigned int` arithmetic is arithmetic on `Nat` reduced modulo `2 ^ 32`,
  `unsigned long` arithmetic is reduced modulo `2 ^ 64`.
* C++ exceptions are values of `Error`; an operation returns the state it leaves
  behind together with `Except Error _`.
* Pointers to heap records are modelled by the records themselves; a `nullptr`
  cell is `none`.
-/

set_option autoImplicit false

namespace Dictionary

/-- Number of values of an `unsigned int`. -/
def UINT_RANGE : Nat := 4294967296

/-- Number of values of an `unsigned long`. -/
def ULONG_RANGE : Nat := 18446744073709551616

/-- The exceptions that leave `insert`, `get`, `printDictionary` and `hashFunction`.
`invalidArgument` and `outOfRange` are the two exceptions of `std::stoul`.
`undefinedBehaviour` marks executions the C++ standard leaves undefined (reading
through a null `hashTable`, indexing outside the array, `% 0`); `fuelExhausted`
marks a probe loop cut off by the recursion bound of the model. -/
inductive Error where
  | unableToInsert
  | elementAlreadyExists
  | emptyDataCollection
  | elementDoesNotExist
  | invalidArgument
  | outOfRange
  | undefinedBehaviour
  | fuelExhausted
  deriving DecidableEq, Repr

deriving instance DecidableEq for Except

/-- The operations of `Profile` that `Dictionary.cpp` uses: `getUserName()`,
`operator==` and `operator<<`. -/
structure ProfileOps (α : Type) where
  getUserName : α → String
  eq : α → α → Bool
  print : α → String

/-- The data members of a `Dictionary`: the array of cells (`none` while
`hashTable == nullptr`) and `elementCount`. -/
structure State (α : Type) where
  hashTable : Option (List (Option α))
  elementCount : Nat
  deriving DecidableEq, Repr

/-- Modelled from the spec: the state left by the constructor `Dictionary::Dictionary()`.
Its body is empty; the initial values of the data members are set in `Dictionary.h`,
which is not among the sources: no storage (`hashTable == nullptr`) and count 0. -/
def empty {α : Type} : State α := { hashTable := none, elementCount := 0 }

/-- The method `Dictionary::getElementCount`. -/
def getElementCount {α : Type} (d : State α) : Nat := d.elementCount

/-- The method `Dictionary::getCapacity`. -/
def getCapacity (CAPACITY : Nat) : Nat := CAPACITY

/-- The characters `std::isspace` accepts in the "C" locale. -/
def isspace (c : Char) : Bool := c.toNat = 32 || (9 ≤ c.toNat && c.toNat ≤ 13)

/-- Value of a run of decimal digits, most significant first. -/
def digitsValue (ds : List Char) : Nat :=
  ds.foldl (fun acc c => 10 * acc + (c.toNat - 48)) 0

/-- The function `std::stoul(str)` with base 10: skip leading white space, accept one optional
sign, read the longest run of decimal digits. No digit: `std::invalid_argument`;
a magnitude above `ULONG_MAX`: `std::out_of_range`; a leading `-` negates the
magnitude in `unsigned long`. -/
def stoul (s : String) : Except Error Nat :=
  let cs := s.data.dropWhile isspace
  let signed : Bool × List Char :=
    match cs with
    | c :: rest => if c = '-' then (true, rest) else if c = '+' then (false, rest) else (false, cs)
    | [] => (false, [])
  let ds := signed.2.takeWhile Char.isDigit
  if ds.isEmpty then .error .invalidArgument
  else if ULONG_RANGE ≤ digitsValue ds then .error .outOfRange
  else if signed.1 then .ok ((ULONG_RANGE - digitsValue ds) % ULONG_RANGE)
  else .ok (digitsValue ds)

/-- The method `Dictionary::hashFunction`: `(stoul(indexingKey) / 16) % CAPACITY`, converted to
`unsigned int`. The remainder by zero is undefined. -/
def hashFunction (CAPACITY : Nat) (indexingKey : String) : Except Error Nat :=
  match stoul indexingKey with
  | .error e => .error e
  | .ok hashValue =>
    if CAPACITY = 0 then .error .undefinedBehaviour
    else .ok (((hashValue / 16) % CAPACITY) % UINT_RANGE)

/-- The index expression `(hashIndex + i) % CAPACITY` on `unsigned int`. -/
def probeIndex (CAPACITY hashIndex i : Nat) : Nat :=
  ((hashIndex + i) % UINT_RANGE) % CAPACITY

/-- The `while` loop of `Dictionary::insert` (lines 112-122), started with the loop
variables `i` and `count`. It ends normally when the probed cell is `nullptr`. -/
def insertLoop {α : Type} (CAPACITY : Nat) (ops : ProfileOps α) (hashTable : List (Option α))
    (hashIndex : Nat) (newElement : α) : Nat → Nat → Nat → Except Error Unit
  | 0, _, _ => .error .fuelExhausted
  | fuel + 1, i, count =>
    match hashTable[probeIndex CAPACITY hashIndex i]? with
    | none => .error .undefinedBehaviour
    | some none => .ok ()
    | some (some stored) =>
      if ops.eq stored newElement then .error .elementAlreadyExists
      else if (count + 1) % UINT_RANGE = CAPACITY then .error .unableToInsert
      else insertLoop CAPACITY ops hashTable hashIndex newElement fuel
        ((i + 1) % UINT_RANGE) ((count + 1) % UINT_RANGE)

/-- Lines 94-99 of `Dictionary::insert`: while `elementCount == 0` a new array of
`CAPACITY` cells is allocated and every cell is set to `nullptr`. -/
def materialize {α : Type} (CAPACITY : Nat) (d : State α) : State α :=
  if d.elementCount = 0 then { d with hashTable := some (List.replicate CAPACITY none) } else d

/-- The method `Dictionary::insert`: the state after the call and how the call ended. -/
def insert {α : Type} (CAPACITY : Nat) (ops : ProfileOps α) (d : State α) (newElement : α) :
    State α × Except Error Unit :=
  -- lines 94-99
  let d1 := materialize CAPACITY d
  -- lines 103-104
  if d1.elementCount = CAPACITY then (d1, .error .unableToInsert)
  else
    -- line 107
    match hashFunction CAPACITY (ops.getUserName newElement) with
    | .error e => (d1, .error e)
    | .ok hashIndex =>
      match d1.hashTable with
      | none => (d1, .error .undefinedBehaviour)
      | some hashTable =>
        -- lines 110-122
        match insertLoop CAPACITY ops hashTable hashIndex newElement CAPACITY 0 0 with
        | .error e => (d1, .error e)
        | .ok () =>
          -- line 125: the write goes to `hashTable[hashIndex]`
          if hashIndex < hashTable.length then
            ({ hashTable := some (hashTable.set hashIndex (some newElement)),
               elementCount := (d1.elementCount + 1) % UINT_RANGE }, .ok ())
          else (d1, .error .undefinedBehaviour)

/-- The `while` loop of `Dictionary::get` (lines 152-160) followed by the `throw` of
line 161. -/
def getLoop {α : Type} (CAPACITY : Nat) (ops : ProfileOps α) (hashTable : List (Option α))
    (hashIndex : Nat) (target : α) : Nat → Nat → Nat → Except Error α
  | 0, _, _ => .error .fuelExhausted
  | fuel + 1, i, count =>
    match hashTable[probeIndex CAPACITY hashIndex i]? with
    | none => .error .undefinedBehaviour
    | some none => .error .elementDoesNotExist
    | some (some stored) =>
      if ops.eq stored target then .ok stored
      else if (count + 1) % UINT_RANGE = CAPACITY then .error .elementDoesNotExist
      else getLoop CAPACITY ops hashTable hashIndex target fuel
        ((i + 1) % UINT_RANGE) ((count + 1) % UINT_RANGE)

/-- The method `Dictionary::get`. The dictionary is not modified. -/
def get {α : Type} (CAPACITY : Nat) (ops : ProfileOps α) (d : State α) (target : α) :
    Except Error α :=
  if d.elementCount = 0 then .error .emptyDataCollection
  else
    match hashFunction CAPACITY (ops.getUserName target) with
    | .error e => .error e
    | .ok hashIndex =>
      match d.hashTable with
      | none => .error .undefinedBehaviour
      | some hashTable => getLoop CAPACITY ops hashTable hashIndex target CAPACITY 0 0

/-- The `for` loop of `Dictionary::printDictionary` (lines 173-176) from `index` on:
one line per cell that is not `nullptr`. -/
def printLoop {α : Type} (ops : ProfileOps α) (hashTable : List (Option α)) :
    Nat → Nat → Except Error (List String)
  | 0, _ => .ok []
  | remaining + 1, index =>
    match hashTable[index]? with
    | none => .error .undefinedBehaviour
    | some cell =>
      match printLoop ops hashTable remaining (index + 1) with
      | .error e => .error e
      | .ok rest =>
        match cell with
        | none => .ok rest
        | some stored =>
          .ok (("HashTable[" ++ toString index ++ "] = " ++ ops.print stored) :: rest)

/-- The method `Dictionary::printDictionary`: the lines written to `cout` (the leading blank
line, the summary line, then the cells). The dictionary is not modified. -/
def printDictionary {α : Type} (CAPACITY : Nat) (ops : ProfileOps α) (d : State α) :
    Except Error (List String) :=
  if d.elementCount = 0 then .error .emptyDataCollection
  else
    match d.hashTable with
    | none => if CAPACITY = 0 then
        .ok ["", "Printing the Dictionary with " ++ toString d.elementCount ++ " elements: "]
      else .error .undefinedBehaviour
    | some hashTable =>
      match printLoop ops hashTable CAPACITY 0 with
      | .error e => .error e
      | .ok cells =>
        .ok ("" :: ("Printing the Dictionary with " ++ toString d.elementCount ++ " elements: ")
          :: cells)

/-- A call of one of the three operations on a dictionary. -/
inductive Call (α : Type) where
  | insert (newElement : α)
  | get (target : α)
  | printDictionary

/-- The state a call leaves behind: `get` and `printDictionary` do not write any data
member. -/
def Call.run {α : Type} (CAPACITY : Nat) (ops : ProfileOps α) (d : State α) : Call α → State α
  | .insert newElement => (Dictionary.insert CAPACITY ops d newElement).1
  | .get _ => d
  | .printDictionary => d

/-- The state after a sequence of calls, in order. -/
def runCalls {α : Type} (CAPACITY : Nat) (ops : ProfileOps α) (d : State α)
    (calls : List (Call α)) : State α :=
  calls.foldl (Call.run CAPACITY ops) d

/-- The state after inserting the records of a list one after another, whatever each
call returns. -/
def insertAll {α : Type} (CAPACITY : Nat) (ops : ProfileOps α) (d : State α)
    (newElements : List α) : State α :=
  newElements.foldl (fun s x => (insert CAPACITY ops s x).1) d

/-- The content of cell `index`: `none` when the array is not allocated, the index is
outside it, or the cell is `nullptr`. -/
def occupant {α : Type} (d : State α) (index : Nat) : Option α :=
  match d.hashTable with
  | none => none
  | some hashTable => (hashTable[index]?).join

/-- Number of cells that are not `nullptr`. -/
def occupiedCount {α : Type} (d : State α) : Nat :=
  match d.hashTable with
  | none => 0
  | some hashTable => hashTable.countP Option.isSome

/-- Modelled from the spec: the record type (`Profile.h` is not among the sources), a
value with a numeric-string key and further data that does not take part in the
equality. -/
structure Profile where
  userName : String
  name : String
  deriving DecidableEq, Repr

/-- Modelled from the spec: the operations of the record type, with equality decided
by the key. -/
def profileOps : ProfileOps Profile where
  getUserName := fun p => p.userName
  eq := fun a b => decide (a.userName = b.userName)
  print := fun p => p.userName ++ " " ++ p.name

/-- The records used in the concrete scenarios: keys "160" and "432" both hash to
10 when `CAPACITY = 17`, key "336" hashes to 4. -/
def p160 : Profile := { userName := "160", name := "first" }

/-- A record unequal to `p160` whose key hashes to the same index. -/
def p432 : Profile := { userName := "432", name := "second" }

/-- A record whose key hashes to index 4. -/
def p336 : Profile := { userName := "336", name := "third" }

/-- A record whose key is not a number. -/
def pBad : Profile := { userName := "abc", name := "malformed" }

/-- Every stored record sits in the cell its own key hashes to. -/
def HomeSlots {α : Type} (CAPACITY : Nat) (ops : ProfileOps α) (d : State α) : Prop :=
  ∀ i p, occupant d i = some p → hashFunction CAPACITY (ops.getUserName p) = .ok i

/-- What holds of every state reached from the constructor: the count does not exceed
`CAPACITY`, an allocated array has `CAPACITY` cells, the array is allocated once the
count is positive, and there are at most `elementCount` records in the array. -/
structure Inv {α : Type} (CAPACITY : Nat) (d : State α) : Prop where
  count_le : d.elementCount ≤ CAPACITY
  length_eq : ∀ t, d.hashTable = some t → t.length = CAPACITY
  allocated : d.elementCount ≠ 0 → d.hashTable ≠ none
  occupied_le : occupiedCount d ≤ d.elementCount

/-- Seventeen records whose keys hash to the seventeen indices 0 .. 16 when
`CAPACITY = 17`; the eleventh is `p160`. -/
def seventeenProfiles : List Profile :=
  [⟨"0", "r0"⟩, ⟨"16", "r1"⟩, ⟨"32", "r2"⟩, ⟨"48", "r3"⟩, ⟨"64", "r4"⟩, ⟨"80", "r5"⟩,
   ⟨"96", "r6"⟩, ⟨"112", "r7"⟩, ⟨"128", "r8"⟩, ⟨"144", "r9"⟩, p160, ⟨"176", "r11"⟩,
   ⟨"192", "r12"⟩, ⟨"208", "r13"⟩, ⟨"224", "r14"⟩, ⟨"240", "r15"⟩, ⟨"256", "r16"⟩]

/-- The seventeen records followed by an eighteenth, unequal to all of them. -/
def eighteenProfiles : List Profile := seventeenProfiles ++ [p432]

/-- The Dictionary with `CAPACITY = 17` after `insert(p160)`. -/
def d160 : State Profile := insertAll 17 profileOps empty [p160]

/-- The Dictionary with `CAPACITY = 17` after `insert(p160)` and `insert(p432)`. -/
def d160_432 : State Profile := insertAll 17 profileOps empty [p160, p432]

/-- The Dictionary with `CAPACITY = 17` after `insert(p160)` and `insert(p336)`. -/
def d160_336 : State Profile := insertAll 17 profileOps empty [p160, p336]

/-- The Dictionary with `CAPACITY = 17` after the seventeen records were inserted. -/
def dFull : State Profile := insertAll 17 profileOps empty seventeenProfiles

/-- A target with the key of `p160` and other data; it is equal to `p160`. -/
def q160 : Profile := { userName := "160", name := "query" }

/-- The loop of `Dictionary::insert` (lines 112-122) with a record of what it does:
next to the way the loop ends, the indices of the cells its condition examined, in the
order they were examined. -/
def insertLoopTrace {α : Type} (CAPACITY : Nat) (ops : ProfileOps α) (hashTable : List (Option α))
    (hashIndex : Nat) (newElement : α) : Nat → Nat → Nat → Except Error Unit × List Nat
  | 0, _, _ => (.error .fuelExhausted, [])
  | fuel + 1, i, count =>
    match hashTable[probeIndex CAPACITY hashIndex i]? with
    | none => (.error .undefinedBehaviour, [probeIndex CAPACITY hashIndex i])
    | some none => (.ok (), [probeIndex CAPACITY hashIndex i])
    | some (some stored) =>
      if ops.eq stored newElement then
        (.error .elementAlreadyExists, [probeIndex CAPACITY hashIndex i])
      else if (count + 1) % UINT_RANGE = CAPACITY then
        (.error .unableToInsert, [probeIndex CAPACITY hashIndex i])
      else
        ((insertLoopTrace CAPACITY ops hashTable hashIndex newElement fuel
            ((i + 1) % UINT_RANGE) ((count + 1) % UINT_RANGE)).1,
          probeIndex CAPACITY hashIndex i ::
            (insertLoopTrace CAPACITY ops hashTable hashIndex newElement fuel
              ((i + 1) % UINT_RANGE) ((count + 1) % UINT_RANGE)).2)

/-- The loop of `Dictionary::get` (lines 152-160, then line 161) with a record of what
it does: next to the way the loop ends, the indices of the cells its condition examined,
in the order they were examined. -/
def getLoopTrace {α : Type} (CAPACITY : Nat) (ops : ProfileOps α) (hashTable : List (Option α))
    (hashIndex : Nat) (target : α) : Nat → Nat → Nat → Except Error α × List Nat
  | 0, _, _ => (.error .fuelExhausted, [])
  | fuel + 1, i, count =>
    match hashTable[probeIndex CAPACITY hashIndex i]? with
    | none => (.error .undefinedBehaviour, [probeIndex CAPACITY hashIndex i])
    | some none => (.error .elementDoesNotExist, [probeIndex CAPACITY hashIndex i])
    | some (some stored) =>
      if ops.eq stored target then (.ok stored, [probeIndex CAPACITY hashIndex i])
      else if (count + 1) % UINT_RANGE = CAPACITY then
        (.error .elementDoesNotExist, [probeIndex CAPACITY hashIndex i])
      else
        ((getLoopTrace CAPACITY ops hashTable hashIndex target fuel
            ((i + 1) % UINT_RANGE) ((count + 1) % UINT_RANGE)).1,
          probeIndex CAPACITY hashIndex i ::
            (getLoopTrace CAPACITY ops hashTable hashIndex target fuel
              ((i + 1) % UINT_RANGE) ((count + 1) % UINT_RANGE)).2)

/-- The text of the line `printDictionary` writes for the record of cell `index`. -/
def cellLine {α : Type} (ops : ProfileOps α) (index : Nat) (stored : α) : String :=
  "HashTable[" ++ toString index ++ "] = " ++ ops.print stored

/-- The text of the summary line `printDictionary` writes. -/
def summaryLine (elementCount : Nat) : String :=
  "Printing the Dictionary with " ++ toString elementCount ++ " elements: "

/-- The indices `(start + i) mod CAPACITY` for `i = 0, 1, ..., n - 1`, in this order. -/
def probeSequence (CAPACITY start n : Nat) : List Nat :=
  (List.range n).map (fun i => (start + i) % CAPACITY)

/-- The non-negative integer that a string of decimal digits denotes in base 10: the
digits, least significant first, weighted by the powers of ten. This follows the words
of the specification, not the code of `stoul`. -/
def keyValue (key : String) : Nat :=
  Nat.ofDigits 10 (key.data.reverse.map (fun c => c.toNat - 48))

/-- The array of `d160`: seventeen cells, `p160` in cell 10. -/
def t160 : List (Option Profile) :=
  List.replicate 10 none ++ [some p160] ++ List.replicate 6 none

/-! ## Basic facts about the operations -/

theorem materialize_elementCount {α : Type} (CAPACITY : Nat) (d : State α) :
    (materialize CAPACITY d).elementCount = d.elementCount := by
  unfold materialize; split <;> rfl

theorem materialize_of_ne_zero {α : Type} (CAPACITY : Nat) (d : State α)
    (h : d.elementCount ≠ 0) : materialize CAPACITY d = d := by
  unfold materialize; simp [h]

theorem materialize_of_eq_zero {α : Type} (CAPACITY : Nat) (d : State α)
    (h : d.elementCount = 0) :
    materialize CAPACITY d = { hashTable := some (List.replicate CAPACITY none), elementCount := 0 } := by
  unfold materialize; simp [h]

/-- Every run of `insert` either throws and leaves the state produced by lines 94-99,
or passes all checks, writes the new record into cell `hashIndex` and increments the
count. -/
theorem insert_cases {α : Type} (CAPACITY : Nat) (ops : ProfileOps α) (d : State α) (x : α) :
    (∃ e, insert CAPACITY ops d x = (materialize CAPACITY d, .error e)) ∨
    (∃ hashIndex hashTable,
      (materialize CAPACITY d).elementCount ≠ CAPACITY ∧
      hashFunction CAPACITY (ops.getUserName x) = .ok hashIndex ∧
      (materialize CAPACITY d).hashTable = some hashTable ∧
      insertLoop CAPACITY ops hashTable hashIndex x CAPACITY 0 0 = .ok () ∧
      hashIndex < hashTable.length ∧
      insert CAPACITY ops d x =
        ({ hashTable := some (hashTable.set hashIndex (some x)),
           elementCount := ((materialize CAPACITY d).elementCount + 1) % UINT_RANGE }, .ok ())) := by
  unfold insert
  simp only []
  split
  · exact Or.inl ⟨_, rfl⟩
  · rename_i hne
    split
    · exact Or.inl ⟨_, rfl⟩
    · rename_i hashIndex hh
      split
      · exact Or.inl ⟨_, rfl⟩
      · rename_i hashTable ht
        split
        · exact Or.inl ⟨_, rfl⟩
        · rename_i hl
          split
          · rename_i hlt
            exact Or.inr ⟨hashIndex, hashTable, hne, hh, ht, hl, hlt, rfl⟩
          · exact Or.inl ⟨_, rfl⟩

theorem hashFunction_lt {CAPACITY : Nat} {key : String} {hashIndex : Nat}
    (h : hashFunction CAPACITY key = .ok hashIndex) : 0 < CAPACITY ∧ hashIndex < CAPACITY := by
  unfold hashFunction at h
  split at h
  · cases h
  · split at h
    · cases h
    · rename_i hc
      have hpos : 0 < CAPACITY := Nat.pos_of_ne_zero hc
      injection h with h
      subst h
      exact ⟨hpos, Nat.lt_of_le_of_lt (Nat.mod_le _ _) (Nat.mod_lt _ hpos)⟩

theorem hashFunction_lt_range {CAPACITY : Nat} {key : String} {hashIndex : Nat}
    (h : hashFunction CAPACITY key = .ok hashIndex) : hashIndex < UINT_RANGE := by
  unfold hashFunction at h
  split at h
  · cases h
  · split at h
    · cases h
    · injection h with h
      subst h
      exact Nat.mod_lt _ (by decide)

/-- The first probe of a record looks at the cell its key hashes to. -/
theorem probeIndex_zero {CAPACITY : Nat} {key : String} {hashIndex : Nat}
    (h : hashFunction CAPACITY key = .ok hashIndex) : probeIndex CAPACITY hashIndex 0 = hashIndex := by
  unfold probeIndex
  rw [Nat.add_zero, Nat.mod_eq_of_lt (hashFunction_lt_range h),
    Nat.mod_eq_of_lt (hashFunction_lt h).2]

/-- While the index sum does not leave `unsigned int`, the probed index is
`(hashIndex + i) mod CAPACITY`. -/
theorem probeIndex_eq {CAPACITY hashIndex i : Nat} (hc : CAPACITY ≤ 2147483648)
    (hh : hashIndex < CAPACITY) (hi : i < CAPACITY) :
    probeIndex CAPACITY hashIndex i = (hashIndex + i) % CAPACITY := by
  have hlt : hashIndex + i < UINT_RANGE := by unfold UINT_RANGE; omega
  unfold probeIndex
  rw [Nat.mod_eq_of_lt hlt]

theorem occupant_materialize {α : Type} (CAPACITY : Nat) (d : State α) (i : Nat) (p : α)
    (h : occupant (materialize CAPACITY d) i = some p) : occupant d i = some p := by
  by_cases h0 : d.elementCount = 0
  · rw [materialize_of_eq_zero _ _ h0] at h
    simp only [occupant, List.getElem?_replicate] at h
    split at h <;> simp at h
  · rwa [materialize_of_ne_zero _ _ h0] at h

theorem occupant_set {α : Type} (hashTable : List (Option α)) (n : Nat) (x : α) (c i : Nat) (p : α)
    (h : occupant ({ hashTable := some (hashTable.set n (some x)), elementCount := c } : State α) i
      = some p) :
    (i = n ∧ p = x) ∨ (i ≠ n ∧ (hashTable[i]?).join = some p) := by
  simp only [occupant] at h
  by_cases hin : n = i
  · subst hin
    rw [List.getElem?_set] at h
    simp only [if_true] at h
    split at h
    · simp at h
      exact Or.inl ⟨rfl, h.symm⟩
    · simp at h
  · rw [List.getElem?_set_ne hin] at h
    exact Or.inr ⟨fun e => hin e.symm, h⟩

/-- What a cell can hold after `insert`: the new record, in the cell its key hashes
to, or what the cell held before. -/
theorem occupant_insert {α : Type} (CAPACITY : Nat) (ops : ProfileOps α) (d : State α) (x : α)
    (i : Nat) (p : α) (h : occupant (insert CAPACITY ops d x).1 i = some p) :
    (p = x ∧ hashFunction CAPACITY (ops.getUserName x) = .ok i) ∨ occupant d i = some p := by
  rcases insert_cases CAPACITY ops d x with ⟨e, he⟩ | ⟨hi, t, _, hh, ht, _, _, he⟩
  · rw [he] at h
    exact Or.inr (occupant_materialize _ _ _ _ h)
  · rw [he] at h
    rcases occupant_set _ _ _ _ _ _ h with ⟨h1, h2⟩ | ⟨_, h2⟩
    · subst h1
      exact Or.inl ⟨h2, hh⟩
    · refine Or.inr (occupant_materialize CAPACITY _ _ _ ?_)
      simp only [occupant, ht]
      exact h2

theorem homeSlots_empty {α : Type} (CAPACITY : Nat) (ops : ProfileOps α) :
    HomeSlots CAPACITY ops (empty : State α) := by
  intro i p h
  simp [occupant, empty] at h

theorem homeSlots_insert {α : Type} (CAPACITY : Nat) (ops : ProfileOps α) (d : State α) (x : α)
    (h : HomeSlots CAPACITY ops d) : HomeSlots CAPACITY ops (insert CAPACITY ops d x).1 := by
  intro i p hp
  rcases occupant_insert _ _ _ _ _ _ hp with ⟨h1, h2⟩ | h1
  · rw [h1]; exact h2
  · exact h i p h1

theorem homeSlots_insertAll {α : Type} (CAPACITY : Nat) (ops : ProfileOps α) (xs : List α)
    (d : State α) (h : HomeSlots CAPACITY ops d) :
    HomeSlots CAPACITY ops (insertAll CAPACITY ops d xs) := by
  induction xs generalizing d with
  | nil => exact h
  | cons x xs ih => exact ih _ (homeSlots_insert _ _ _ _ h)

/-! ## The probe loops -/

/-- A successful run of the loop of `get` stops at the first probed cell whose record
equals the target; every cell probed before holds a record that does not. -/
theorem getLoop_ok {α : Type} (CAPACITY : Nat) (ops : ProfileOps α) (t : List (Option α))
    (hashIndex : Nat) (q r : α) (hC : CAPACITY < UINT_RANGE) :
    ∀ fuel i, i + fuel = CAPACITY →
      getLoop CAPACITY ops t hashIndex q fuel i i = .ok r →
      ∃ k, i ≤ k ∧ k < CAPACITY ∧ t[probeIndex CAPACITY hashIndex k]? = some (some r) ∧
        ops.eq r q = true ∧
        ∀ j, i ≤ j → j < k →
          ∃ p, t[probeIndex CAPACITY hashIndex j]? = some (some p) ∧ ops.eq p q = false := by
  intro fuel
  induction fuel with
  | zero => intro i _ h; simp [getLoop] at h
  | succ fuel ih =>
    intro i hi h
    have hi1 : (i + 1) % UINT_RANGE = i + 1 := Nat.mod_eq_of_lt (by omega)
    simp only [getLoop, hi1] at h
    split at h
    · cases h
    · cases h
    · rename_i stored hs
      by_cases heq : ops.eq stored q = true
      · simp only [heq, if_true] at h
        injection h with h
        subst h
        exact ⟨i, Nat.le_refl _, by omega, hs, heq, fun j h1 h2 => absurd h1 (by omega)⟩
      · rw [if_neg heq] at h
        split at h
        · cases h
        · obtain ⟨k, hk1, hk2, hk3, hk4, hk5⟩ := ih (i + 1) (by omega) h
          refine ⟨k, by omega, hk2, hk3, hk4, fun j h1 h2 => ?_⟩
          by_cases hji : j = i
          · subst hji
            exact ⟨stored, hs, by simpa using heq⟩
          · exact hk5 j (by omega) h2

/-- How the loop of `insert` can end on an array of `CAPACITY` cells: at the first
probed `nullptr` cell, at the first probed record equal to the new one, or after
`CAPACITY` probes that all met a record different from the new one. -/
theorem insertLoop_cases {α : Type} (CAPACITY : Nat) (ops : ProfileOps α) (t : List (Option α))
    (hashIndex : Nat) (x : α) (hC : CAPACITY < UINT_RANGE) (hlen : t.length = CAPACITY) :
    ∀ fuel i, i + fuel = CAPACITY → 0 < fuel →
      (insertLoop CAPACITY ops t hashIndex x fuel i i = .ok () ∧
        ∃ k, i ≤ k ∧ k < CAPACITY ∧ t[probeIndex CAPACITY hashIndex k]? = some none ∧
          ∀ j, i ≤ j → j < k →
            ∃ p, t[probeIndex CAPACITY hashIndex j]? = some (some p) ∧ ops.eq p x = false) ∨
      (insertLoop CAPACITY ops t hashIndex x fuel i i = .error .elementAlreadyExists ∧
        ∃ k p, i ≤ k ∧ k < CAPACITY ∧ t[probeIndex CAPACITY hashIndex k]? = some (some p) ∧
          ops.eq p x = true) ∨
      (insertLoop CAPACITY ops t hashIndex x fuel i i = .error .unableToInsert ∧
        ∀ j, i ≤ j → j < CAPACITY →
          ∃ p, t[probeIndex CAPACITY hashIndex j]? = some (some p) ∧ ops.eq p x = false) := by
  intro fuel
  induction fuel with
  | zero => intro i _ h; exact absurd h (Nat.lt_irrefl 0)
  | succ fuel ih =>
    intro i hi _
    have hi1 : (i + 1) % UINT_RANGE = i + 1 := Nat.mod_eq_of_lt (by omega)
    have hpos : 0 < CAPACITY := by omega
    have hidx : probeIndex CAPACITY hashIndex i < t.length := by
      rw [hlen]; exact Nat.mod_lt _ hpos
    simp only [insertLoop, hi1]
    rcases hcell : t[probeIndex CAPACITY hashIndex i]? with _ | cell
    · rw [List.getElem?_eq_none_iff] at hcell
      omega
    · cases cell with
      | none =>
        exact Or.inl ⟨rfl, i, Nat.le_refl _, by omega, hcell, fun j h1 h2 => absurd h1 (by omega)⟩
      | some stored =>
        by_cases heq : ops.eq stored x = true
        · simp only [heq, if_true]
          exact Or.inr (Or.inl ⟨trivial, i, stored, Nat.le_refl _, by omega, hcell, heq⟩)
        · have heq2 : ops.eq stored x = false := by simpa using heq
          simp only [heq2]
          by_cases hfull : i + 1 = CAPACITY
          · simp only [hfull, if_true]
            refine Or.inr (Or.inr ⟨by simp, fun j h1 h2 => ?_⟩)
            have : j = i := by omega
            subst this
            exact ⟨stored, hcell, heq2⟩
          · simp only [hfull, if_false]
            rcases ih (i + 1) (by omega) (by omega) with ⟨h1, k, hk1, hk2, hk3, hk4⟩ |
              ⟨h1, k, p, hk1, hk2, hk3, hk4⟩ | ⟨h1, hk⟩
            · refine Or.inl ⟨by simpa using h1, k, by omega, hk2, hk3, fun j hj1 hj2 => ?_⟩
              by_cases hji : j = i
              · subst hji; exact ⟨stored, hcell, heq2⟩
              · exact hk4 j (by omega) hj2
            · exact Or.inr (Or.inl ⟨by simpa using h1, k, p, by omega, hk2, hk3, hk4⟩)
            · refine Or.inr (Or.inr ⟨by simpa using h1, fun j hj1 hj2 => ?_⟩)
              by_cases hji : j = i
              · subst hji; exact ⟨stored, hcell, heq2⟩
              · exact hk j (by omega) hj2

/-! ## Invariants of the states reached by calls -/

theorem inv_empty {α : Type} (CAPACITY : Nat) : Inv CAPACITY (empty : State α) :=
  ⟨Nat.zero_le _, fun t h => by simp [empty] at h, fun h => absurd rfl h, Nat.le_refl _⟩

theorem inv_materialize {α : Type} (CAPACITY : Nat) (d : State α) (h : Inv CAPACITY d) :
    Inv CAPACITY (materialize CAPACITY d) := by
  by_cases h0 : d.elementCount = 0
  · rw [materialize_of_eq_zero _ _ h0]
    refine ⟨Nat.zero_le _, fun t ht => ?_, fun hne => absurd rfl hne, ?_⟩
    · simp only [Option.some.injEq] at ht
      subst ht
      exact List.length_replicate _ _
    · simp [occupiedCount, List.countP_replicate]
  · rwa [materialize_of_ne_zero _ _ h0]

theorem materialize_hashTable {α : Type} (CAPACITY : Nat) (d : State α) (h : Inv CAPACITY d) :
    ∃ t, (materialize CAPACITY d).hashTable = some t ∧ t.length = CAPACITY := by
  by_cases h0 : d.elementCount = 0
  · rw [materialize_of_eq_zero _ _ h0]
    exact ⟨_, rfl, List.length_replicate _ _⟩
  · rw [materialize_of_ne_zero _ _ h0]
    rcases ht : d.hashTable with _ | t
    · exact absurd ht (h.allocated h0)
    · exact ⟨t, rfl, h.length_eq t ht⟩

theorem countP_set_le {α : Type} (t : List (Option α)) (n : Nat) (x : α) :
    (t.set n (some x)).countP Option.isSome ≤ t.countP Option.isSome + 1 := by
  by_cases hn : n < t.length
  · rw [List.countP_set _ _ _ _ hn]
    simp only [Option.isSome_some, if_true]
    omega
  · rw [List.set_eq_of_length_le (by omega)]
    omega

theorem inv_insert {α : Type} (CAPACITY : Nat) (ops : ProfileOps α) (d : State α) (x : α)
    (hC : CAPACITY < UINT_RANGE) (h : Inv CAPACITY d) :
    Inv CAPACITY (insert CAPACITY ops d x).1 := by
  have hm := inv_materialize CAPACITY d h
  rcases insert_cases CAPACITY ops d x with ⟨e, he⟩ | ⟨hi, t, hne, _, ht, _, _, he⟩
  · rw [he]; exact hm
  · rw [he]
    have hlt : (materialize CAPACITY d).elementCount < CAPACITY :=
      Nat.lt_of_le_of_ne hm.count_le hne
    have hmod : ((materialize CAPACITY d).elementCount + 1) % UINT_RANGE
        = (materialize CAPACITY d).elementCount + 1 := Nat.mod_eq_of_lt (by omega)
    have hocc := hm.occupied_le
    simp only [occupiedCount, ht] at hocc
    refine ⟨?_, fun t2 ht2 => ?_, fun _ => by simp, ?_⟩
    · simp only [hmod]; omega
    · simp only [Option.some.injEq] at ht2
      subst ht2
      rw [List.length_set]
      exact hm.length_eq t ht
    · simp only [occupiedCount, hmod]
      exact Nat.le_trans (countP_set_le t hi x) (by omega)

theorem inv_insertAll {α : Type} (CAPACITY : Nat) (ops : ProfileOps α) (hC : CAPACITY < UINT_RANGE)
    (xs : List α) (d : State α) (h : Inv CAPACITY d) :
    Inv CAPACITY (insertAll CAPACITY ops d xs) := by
  induction xs generalizing d with
  | nil => exact h
  | cons x xs ih => exact ih _ (inv_insert _ _ _ _ hC h)

/-- The count never passes `CAPACITY`, whatever `CAPACITY` is. -/
theorem elementCount_insert_le {α : Type} (CAPACITY : Nat) (ops : ProfileOps α) (d : State α)
    (x : α) (h : d.elementCount ≤ CAPACITY) :
    (insert CAPACITY ops d x).1.elementCount ≤ CAPACITY := by
  rcases insert_cases CAPACITY ops d x with ⟨e, he⟩ | ⟨hi, t, hne, _, _, _, _, he⟩
  · rw [he, materialize_elementCount]; exact h
  · rw [he]
    rw [materialize_elementCount] at hne
    show (((materialize CAPACITY d).elementCount + 1) % UINT_RANGE) ≤ CAPACITY
    rw [materialize_elementCount]
    exact Nat.le_trans (Nat.mod_le _ _) (Nat.succ_le_of_lt (Nat.lt_of_le_of_ne h hne))

theorem occupiedCount_pos {α : Type} (d : State α) (i : Nat) (p : α)
    (h : occupant d i = some p) : 0 < occupiedCount d := by
  unfold occupant at h
  unfold occupiedCount
  split at h
  · cases h
  · rename_i t ht
    rw [List.countP_pos_iff]
    rcases hc : t[i]? with _ | c
    · rw [hc] at h; simp at h
    · rw [hc] at h
      refine ⟨c, List.mem_iff_getElem?.mpr ⟨i, hc⟩, ?_⟩
      cases c with
      | none => simp at h
      | some v => rfl

/-- The result of `insert` when its loop ends at a `nullptr` cell. -/
theorem insert_of_loop_ok {α : Type} (CAPACITY : Nat) (ops : ProfileOps α) (d : State α) (x : α)
    (hashIndex : Nat) (t : List (Option α))
    (hne : (materialize CAPACITY d).elementCount ≠ CAPACITY)
    (hh : hashFunction CAPACITY (ops.getUserName x) = .ok hashIndex)
    (ht : (materialize CAPACITY d).hashTable = some t)
    (hl : insertLoop CAPACITY ops t hashIndex x CAPACITY 0 0 = .ok ())
    (hlt : hashIndex < t.length) :
    insert CAPACITY ops d x =
      ({ hashTable := some (t.set hashIndex (some x)),
         elementCount := ((materialize CAPACITY d).elementCount + 1) % UINT_RANGE }, .ok ()) := by
  unfold insert
  simp only [hne, if_false, hh, ht, hl, hlt, if_true]

/-- The result of `insert` when its loop throws. -/
theorem insert_of_loop_error {α : Type} (CAPACITY : Nat) (ops : ProfileOps α) (d : State α) (x : α)
    (hashIndex : Nat) (t : List (Option α)) (e : Error)
    (hne : (materialize CAPACITY d).elementCount ≠ CAPACITY)
    (hh : hashFunction CAPACITY (ops.getUserName x) = .ok hashIndex)
    (ht : (materialize CAPACITY d).hashTable = some t)
    (hl : insertLoop CAPACITY ops t hashIndex x CAPACITY 0 0 = .error e) :
    insert CAPACITY ops d x = (materialize CAPACITY d, .error e) := by
  unfold insert
  simp only [hne, if_false, hh, ht, hl]

theorem occupant_eq_some_iff {α : Type} (d : State α) (i : Nat) (p : α) :
    occupant d i = some p ↔ ∃ t, d.hashTable = some t ∧ t[i]? = some (some p) := by
  unfold occupant
  constructor
  · intro h
    split at h
    · cases h
    · rename_i t ht
      refine ⟨t, ht, ?_⟩
      rcases hc : t[i]? with _ | c
      · rw [hc] at h; simp at h
      · rw [hc] at h
        cases c with
        | none => simp at h
        | some v => simp at h; rw [h]
  · rintro ⟨t, ht, hc⟩
    rw [ht]
    simp [hc]

theorem runCalls_elementCount_le {α : Type} (CAPACITY : Nat) (ops : ProfileOps α)
    (calls : List (Call α)) (d : State α) (h : d.elementCount ≤ CAPACITY) :
    (runCalls CAPACITY ops d calls).elementCount ≤ CAPACITY := by
  induction calls generalizing d with
  | nil => exact h
  | cons c cs ih =>
    apply ih
    cases c with
    | insert x => exact elementCount_insert_le _ _ _ _ h
    | get q => exact h
    | printDictionary => exact h

theorem hashFunction_of_stoul {CAPACITY : Nat} {key : String} {v : Nat}
    (h : stoul key = .ok v) (hpos : 0 < CAPACITY) :
    hashFunction CAPACITY key = .ok (((v / 16) % CAPACITY) % UINT_RANGE) := by
  unfold hashFunction
  rw [h]
  simp only [Nat.ne_of_gt hpos, if_false]

/-- A full cycle of probes without index wrap-around visits every cell: if all probed
cells hold a record, no cell of the array is `nullptr`. -/
theorem countP_of_all_probed {α : Type} (CAPACITY hashIndex : Nat) (t : List (Option α))
    (hC : CAPACITY ≤ 2147483648) (hh : hashIndex < CAPACITY) (hlen : t.length = CAPACITY)
    (hall : ∀ j, j < CAPACITY → ∃ p, t[probeIndex CAPACITY hashIndex j]? = some (some p)) :
    t.countP Option.isSome = CAPACITY := by
  rw [← hlen, List.countP_eq_length]
  intro a ha
  obtain ⟨n, hn⟩ := List.mem_iff_getElem?.mp ha
  have hnlt : n < CAPACITY := by
    rw [← hlen]
    exact (List.getElem?_eq_some.mp hn).1
  have hcover : ∃ j, j < CAPACITY ∧ (hashIndex + j) % CAPACITY = n := by
    by_cases hle : hashIndex ≤ n
    · exact ⟨n - hashIndex, by omega, by
        rw [Nat.add_sub_cancel' hle]; exact Nat.mod_eq_of_lt hnlt⟩
    · refine ⟨n + CAPACITY - hashIndex, by omega, ?_⟩
      have : hashIndex + (n + CAPACITY - hashIndex) = n + CAPACITY := by omega
      rw [this, Nat.add_mod_right]
      exact Nat.mod_eq_of_lt hnlt
  obtain ⟨j, hj, hjn⟩ := hcover
  obtain ⟨p, hp⟩ := hall j hj
  rw [probeIndex_eq hC hh hj, hjn, hn] at hp
  injection hp with hp
  rw [hp]
  rfl

/-- Inserting a record that no stored record is equal to, into a Dictionary that is
not full, stores it and counts it. -/
theorem insert_fresh {α : Type} (CAPACITY : Nat) (ops : ProfileOps α) (d : State α) (x : α)
    (hC : CAPACITY ≤ 2147483648) (hinv : Inv CAPACITY d) (hroom : d.elementCount < CAPACITY)
    (hkey : ∃ v, stoul (ops.getUserName x) = .ok v)
    (hnew : ∀ i p, occupant d i = some p → ops.eq p x = false) :
    (insert CAPACITY ops d x).2 = .ok () ∧
    (insert CAPACITY ops d x).1.elementCount = d.elementCount + 1 := by
  have hR : CAPACITY < UINT_RANGE := by unfold UINT_RANGE; omega
  have hpos : 0 < CAPACITY := by omega
  obtain ⟨v, hv⟩ := hkey
  have hh := hashFunction_of_stoul hv hpos
  obtain ⟨_, hlt⟩ := hashFunction_lt hh
  obtain ⟨t, ht, hlen⟩ := materialize_hashTable CAPACITY d hinv
  have hminv := inv_materialize CAPACITY d hinv
  have hcnt := materialize_elementCount CAPACITY d
  have hne : (materialize CAPACITY d).elementCount ≠ CAPACITY := by omega
  have hloop : insertLoop CAPACITY ops t (((v / 16) % CAPACITY) % UINT_RANGE) x CAPACITY 0 0
      = .ok () := by
    rcases insertLoop_cases CAPACITY ops t _ x hR hlen CAPACITY 0 (Nat.zero_add _) hpos with
      ⟨h1, _⟩ | ⟨_, k, p, _, _, hk3, hk4⟩ | ⟨_, hall⟩
    · exact h1
    · have hocc : occupant (materialize CAPACITY d) _ = some p :=
        (occupant_eq_some_iff _ _ p).mpr ⟨t, ht, hk3⟩
      have := hnew _ p (occupant_materialize _ _ _ _ hocc)
      rw [this] at hk4
      cases hk4
    · have hfull := countP_of_all_probed CAPACITY _ t hC hlt hlen
        (fun j hj => (hall j (Nat.zero_le _) hj).imp fun p hp => hp.1)
      have hocc := hminv.occupied_le
      simp only [occupiedCount, ht] at hocc
      omega
  rw [insert_of_loop_ok CAPACITY ops d x _ t hne hh ht hloop (by omega)]
  refine ⟨rfl, ?_⟩
  show ((materialize CAPACITY d).elementCount + 1) % UINT_RANGE = d.elementCount + 1
  rw [hcnt]
  exact Nat.mod_eq_of_lt (by omega)

theorem insertAll_append {α : Type} (CAPACITY : Nat) (ops : ProfileOps α) (d : State α)
    (xs ys : List α) :
    insertAll CAPACITY ops d (xs ++ ys) = insertAll CAPACITY ops (insertAll CAPACITY ops d xs) ys := by
  unfold insertAll
  rw [List.foldl_append]

theorem insertAll_take_succ {α : Type} (CAPACITY : Nat) (ops : ProfileOps α) (d : State α)
    (xs : List α) (k : Nat) (x : α) (hx : xs[k]? = some x) :
    insertAll CAPACITY ops d (xs.take (k + 1))
      = (insert CAPACITY ops (insertAll CAPACITY ops d (xs.take k)) x).1 := by
  rw [List.take_succ, hx, insertAll_append]
  rfl

/-- Every stored record was stored before or is one of the inserted records. -/
theorem occupant_insertAll {α : Type} (CAPACITY : Nat) (ops : ProfileOps α) (xs : List α)
    (d : State α) (i : Nat) (p : α) (h : occupant (insertAll CAPACITY ops d xs) i = some p) :
    occupant d i = some p ∨ p ∈ xs := by
  induction xs generalizing d with
  | nil => exact Or.inl h
  | cons x xs ih =>
    rcases ih _ h with h1 | h1
    · rcases occupant_insert _ _ _ _ _ _ h1 with ⟨h2, _⟩ | h2
      · exact Or.inr (by rw [h2]; exact List.mem_cons_self _ _)
      · exact Or.inl h2
    · exact Or.inr (List.mem_cons_of_mem _ h1)

/-- Inserting the first `k` of a list of records of which no earlier one is equal to a
later one: while `k ≤ CAPACITY`, every one of these inserts is counted. -/
theorem elementCount_insertAll_take {α : Type} (CAPACITY : Nat) (ops : ProfileOps α)
    (hC : CAPACITY ≤ 2147483648) (xs : List α)
    (hneq : xs.Pairwise (fun a b => ops.eq a b = false))
    (hkeys : ∀ x ∈ xs, ∃ v, stoul (ops.getUserName x) = .ok v) :
    ∀ k, k ≤ CAPACITY → k ≤ xs.length →
      (insertAll CAPACITY ops empty (xs.take k)).elementCount = k ∧
      ∀ x, xs[k]? = some x → k < CAPACITY →
        (insert CAPACITY ops (insertAll CAPACITY ops empty (xs.take k)) x).2 = .ok () ∧
        (insert CAPACITY ops (insertAll CAPACITY ops empty (xs.take k)) x).1.elementCount
          = k + 1 := by
  have hR : CAPACITY < UINT_RANGE := by unfold UINT_RANGE; omega
  have hstep : ∀ k, (insertAll CAPACITY ops empty (xs.take k)).elementCount = k →
      ∀ x, xs[k]? = some x → k < CAPACITY →
        (insert CAPACITY ops (insertAll CAPACITY ops empty (xs.take k)) x).2 = .ok () ∧
        (insert CAPACITY ops (insertAll CAPACITY ops empty (xs.take k)) x).1.elementCount
          = k + 1 := by
    intro k hk x hx hlt
    have hinv := inv_insertAll CAPACITY ops hR (xs.take k) empty (inv_empty CAPACITY)
    obtain ⟨hxlen, hxeq⟩ := List.getElem?_eq_some.mp hx
    have hfresh := insert_fresh CAPACITY ops _ x hC hinv (by omega)
      (hkeys x (List.mem_iff_getElem?.mpr ⟨k, hx⟩)) (by
        intro i p hp
        rcases occupant_insertAll _ _ _ _ _ _ hp with h1 | h1
        · simp [occupant, empty] at h1
        · obtain ⟨m, hm, hm2⟩ := List.mem_take_iff_getElem.mp h1
          have hmk : m < k := by omega
          have := List.pairwise_iff_getElem.mp hneq m k (by omega) hxlen hmk
          rw [hm2, hxeq] at this
          exact this)
    rw [hk] at hfresh
    exact hfresh
  intro k
  induction k with
  | zero => intro h1 h2; exact ⟨rfl, hstep 0 rfl⟩
  | succ k ih =>
    intro h1 h2
    obtain ⟨hk, hins⟩ := ih (by omega) (by omega)
    have hx : xs[k]? = some (xs[k]) := List.getElem?_eq_getElem (by omega)
    have hcount : (insertAll CAPACITY ops empty (xs.take (k + 1))).elementCount = k + 1 := by
      rw [insertAll_take_succ _ _ _ _ _ _ hx]
      exact (hins _ hx (by omega)).2
    exact ⟨hcount, hstep (k + 1) hcount⟩

/-- The only exceptions of `std::stoul`. -/
theorem stoul_error {key : String} {e : Error} (h : stoul key = .error e) :
    e = .invalidArgument ∨ e = .outOfRange := by
  simp only [stoul] at h
  split at h
  · injection h with h; exact Or.inl h.symm
  · split at h
    · injection h with h; exact Or.inr h.symm
    · split at h <;> cases h

/-- On a state reached by calls, `insert` ends in one of the ways the C++ code names:
it returns, or throws `UnableToInsertException`, `ElementAlreadyExistsException` or an
exception of `std::stoul`. The loop bound of the model is never what stops it, and no
undefined behaviour is met. -/
theorem insert_outcome {α : Type} (CAPACITY : Nat) (ops : ProfileOps α) (d : State α) (x : α)
    (hC : CAPACITY < UINT_RANGE) (hinv : Inv CAPACITY d) :
    (insert CAPACITY ops d x).2 = .ok () ∨
    (insert CAPACITY ops d x).2 = .error .unableToInsert ∨
    (insert CAPACITY ops d x).2 = .error .elementAlreadyExists ∨
    (insert CAPACITY ops d x).2 = .error .invalidArgument ∨
    (insert CAPACITY ops d x).2 = .error .outOfRange := by
  have hminv := inv_materialize CAPACITY d hinv
  by_cases hfull : (materialize CAPACITY d).elementCount = CAPACITY
  · refine Or.inr (Or.inl ?_)
    unfold insert
    simp only [hfull, if_true]
  · have hpos : 0 < CAPACITY := by
      have := hminv.count_le
      omega
    cases hs : stoul (ops.getUserName x) with
    | error e =>
      have hh : hashFunction CAPACITY (ops.getUserName x) = .error e := by
        unfold hashFunction; rw [hs]
      have hres : (insert CAPACITY ops d x).2 = .error e := by
        unfold insert
        simp only [hfull, if_false, hh]
      rcases stoul_error hs with h | h
      · exact Or.inr (Or.inr (Or.inr (Or.inl (by rw [hres, h]))))
      · exact Or.inr (Or.inr (Or.inr (Or.inr (by rw [hres, h]))))
    | ok v =>
      have hh := hashFunction_of_stoul hs hpos
      obtain ⟨_, hlt⟩ := hashFunction_lt hh
      obtain ⟨t, ht, hlen⟩ := materialize_hashTable CAPACITY d hinv
      rcases insertLoop_cases CAPACITY ops t (((v / 16) % CAPACITY) % UINT_RANGE) x hC hlen
        CAPACITY 0 (Nat.zero_add _) hpos with ⟨h1, _⟩ | ⟨h1, _⟩ | ⟨h1, _⟩
      · rw [insert_of_loop_ok CAPACITY ops d x _ t hfull hh ht h1 (by omega)]
        exact Or.inl rfl
      · rw [insert_of_loop_error CAPACITY ops d x _ t _ hfull hh ht h1]
        exact Or.inr (Or.inr (Or.inl rfl))
      · rw [insert_of_loop_error CAPACITY ops d x _ t _ hfull hh ht h1]
        exact Or.inr (Or.inl rfl)

/-! ## The claims -/

/-- C3 (as amended): in a state reached from the empty Dictionary by insert calls whose
count is below `CAPACITY` (a constant of type `unsigned int`), inserting a record `r`
that a stored record `s` is equal to, equal records having equal keys, throws
`ElementAlreadyExistsException` and leaves the element count and the whole state as
they were. -/
theorem C3_duplicate_rejected_when_not_full {α : Type} (CAPACITY : Nat) (ops : ProfileOps α)
    (hC : CAPACITY < UINT_RANGE)
    (hkey : ∀ a b, ops.eq a b = true → ops.getUserName a = ops.getUserName b)
    (xs : List α) (r s : α) (j : Nat)
    (hroom : (insertAll CAPACITY ops empty xs).elementCount < CAPACITY)
    (hs : occupant (insertAll CAPACITY ops empty xs) j = some s)
    (heq : ops.eq s r = true) :
    (insert CAPACITY ops (insertAll CAPACITY ops empty xs) r).2 = .error .elementAlreadyExists ∧
    getElementCount (insert CAPACITY ops (insertAll CAPACITY ops empty xs) r).1
      = getElementCount (insertAll CAPACITY ops empty xs) ∧
    (insert CAPACITY ops (insertAll CAPACITY ops empty xs) r).1
      = insertAll CAPACITY ops empty xs := by
  have hinv := inv_insertAll CAPACITY ops hC xs empty (inv_empty CAPACITY)
  have hhome := homeSlots_insertAll CAPACITY ops xs empty (homeSlots_empty CAPACITY ops)
  generalize insertAll CAPACITY ops empty xs = d at *
  have hcount : d.elementCount ≠ 0 := by
    have := occupiedCount_pos d j s hs
    have := hinv.occupied_le
    omega
  have hmat := materialize_of_ne_zero CAPACITY d hcount
  have hh : hashFunction CAPACITY (ops.getUserName r) = .ok j := by
    rw [← hkey s r heq]; exact hhome j s hs
  obtain ⟨t, ht, hcell⟩ := (occupant_eq_some_iff d j s).mp hs
  obtain ⟨hpos, _⟩ := hashFunction_lt hh
  obtain ⟨fuel, hfuel⟩ : ∃ fuel, CAPACITY = fuel + 1 := ⟨CAPACITY - 1, by omega⟩
  have hloop : insertLoop CAPACITY ops t j r CAPACITY 0 0 = .error .elementAlreadyExists := by
    conv => lhs; arg 6; rw [hfuel]
    simp only [insertLoop, probeIndex_zero hh, hcell, heq, if_true]
  have hres := insert_of_loop_error CAPACITY ops d r j t _ (by rw [hmat]; omega) hh
    (by rw [hmat]; exact ht) hloop
  rw [hres, hmat]
  exact ⟨rfl, rfl, rfl⟩

/-- C4: after any sequence of insert calls on an initially empty Dictionary, two
different cells never hold equal records, provided equal records have the same key. -/
theorem C4_uniqueness {α : Type} (CAPACITY : Nat) (ops : ProfileOps α)
    (hkey : ∀ a b, ops.eq a b = true → ops.getUserName a = ops.getUserName b)
    (xs : List α) (i j : Nat) (p q : α) (hij : i ≠ j)
    (hp : occupant (insertAll CAPACITY ops empty xs) i = some p)
    (hq : occupant (insertAll CAPACITY ops empty xs) j = some q) :
    ops.eq p q = false := by
  have hhome := homeSlots_insertAll CAPACITY ops xs empty (homeSlots_empty CAPACITY ops)
  cases heq : ops.eq p q with
  | false => rfl
  | true =>
    have h1 := hhome i p hp
    have h2 := hhome j q hq
    rw [hkey p q heq, h2] at h1
    injection h1 with h1
    exact absurd h1.symm hij

/-- C6: in every state reached from the empty Dictionary by insert, get and
printDictionary calls, whether they return or throw, `0 ≤ elementCount ≤ CAPACITY`. -/
theorem C6_count_bound {α : Type} (CAPACITY : Nat) (ops : ProfileOps α) (calls : List (Call α)) :
    0 ≤ getElementCount (runCalls CAPACITY ops empty calls) ∧
    getElementCount (runCalls CAPACITY ops empty calls) ≤ getCapacity CAPACITY :=
  ⟨Nat.zero_le _, runCalls_elementCount_le CAPACITY ops calls empty (Nat.zero_le _)⟩

/-- C8: in a state reached from the empty Dictionary by insert calls with
`elementCount > 0`, if some cell holds a record equal to the target, equal records
having equal keys, then get does not throw: it returns that record. -/
theorem C8_lookup_complete {α : Type} (CAPACITY : Nat) (ops : ProfileOps α)
    (hkey : ∀ a b, ops.eq a b = true → ops.getUserName a = ops.getUserName b)
    (xs : List α) (q s : α) (j : Nat)
    (hcount : 0 < (insertAll CAPACITY ops empty xs).elementCount)
    (hs : occupant (insertAll CAPACITY ops empty xs) j = some s)
    (heq : ops.eq s q = true) :
    get CAPACITY ops (insertAll CAPACITY ops empty xs) q = .ok s := by
  have hhome := homeSlots_insertAll CAPACITY ops xs empty (homeSlots_empty CAPACITY ops)
  generalize insertAll CAPACITY ops empty xs = d at *
  have hh : hashFunction CAPACITY (ops.getUserName q) = .ok j := by
    rw [← hkey s q heq]; exact hhome j s hs
  obtain ⟨t, ht, hcell⟩ := (occupant_eq_some_iff d j s).mp hs
  obtain ⟨hpos, _⟩ := hashFunction_lt hh
  obtain ⟨fuel, hfuel⟩ : ∃ fuel, CAPACITY = fuel + 1 := ⟨CAPACITY - 1, by omega⟩
  have hloop : getLoop CAPACITY ops t j q CAPACITY 0 0 = .ok s := by
    conv => lhs; arg 6; rw [hfuel]
    simp only [getLoop, probeIndex_zero hh, hcell, heq, if_true]
  unfold get
  simp only [Nat.ne_of_gt hcount, if_false, hh, ht, hloop]

/-- C9: when get returns a record on a Dictionary with `elementCount > 0` (and
`CAPACITY ≤ 2^31`, so that the index sum stays inside `unsigned int`), that record is
held in cell `(start + i) mod CAPACITY` for some `i < CAPACITY`, where
`start = hashFunction(key of the target)`, it equals the target, and every cell
`(start + j) mod CAPACITY` with `j < i` holds a record that is not equal to the target;
so `i` is the least such index. -/
theorem C9_lookup_sound {α : Type} (CAPACITY : Nat) (ops : ProfileOps α)
    (hC : CAPACITY ≤ 2147483648) (d : State α) (q r : α)
    (hcount : 0 < d.elementCount)
    (hget : get CAPACITY ops d q = .ok r) :
    ∃ start i, hashFunction CAPACITY (ops.getUserName q) = .ok start ∧ i < CAPACITY ∧
      occupant d ((start + i) % CAPACITY) = some r ∧ ops.eq r q = true ∧
      (∀ j, j < i → ∃ p, occupant d ((start + j) % CAPACITY) = some p ∧ ops.eq p q = false) ∧
      (∀ j, j < i → ¬ ∃ p, occupant d ((start + j) % CAPACITY) = some p ∧ ops.eq p q = true) := by
  have hR : CAPACITY < UINT_RANGE := by unfold UINT_RANGE; omega
  unfold get at hget
  rw [if_neg (Nat.ne_of_gt hcount)] at hget
  split at hget
  · cases hget
  · rename_i start hh
    split at hget
    · cases hget
    · rename_i t ht
      obtain ⟨hpos, hlt⟩ := hashFunction_lt hh
      obtain ⟨k, _, hk2, hk3, hk4, hk5⟩ :=
        getLoop_ok CAPACITY ops t start q r hR CAPACITY 0 (Nat.zero_add _) hget
      have hbefore : ∀ j, j < k →
          ∃ p, occupant d ((start + j) % CAPACITY) = some p ∧ ops.eq p q = false := by
        intro j hj
        obtain ⟨p, hp1, hp2⟩ := hk5 j (Nat.zero_le _) hj
        rw [probeIndex_eq hC hlt (by omega)] at hp1
        exact ⟨p, (occupant_eq_some_iff d _ p).mpr ⟨t, ht, hp1⟩, hp2⟩
      refine ⟨start, k, hh, hk2, ?_, hk4, hbefore, ?_⟩
      · rw [probeIndex_eq hC hlt hk2] at hk3
        exact (occupant_eq_some_iff d _ r).mpr ⟨t, ht, hk3⟩
      · rintro j hj ⟨p, hp1, hp2⟩
        obtain ⟨p2, hp3, hp4⟩ := hbefore j hj
        rw [hp1] at hp3
        injection hp3 with hp3
        subst hp3
        rw [hp2] at hp4
        cases hp4

/-- C10 (as amended): when insert throws, whatever the exception, `elementCount` is
what it was; a Dictionary with `elementCount ≠ 0` is left exactly as it was, and a
Dictionary with `elementCount = 0` is left with an allocated array of `CAPACITY`
`nullptr` cells and `elementCount = 0`. -/
theorem C10_insert_failure_state {α : Type} (CAPACITY : Nat) (ops : ProfileOps α) (d : State α)
    (r : α) (e : Error) (hfail : (insert CAPACITY ops d r).2 = .error e) :
    (insert CAPACITY ops d r).1.elementCount = d.elementCount ∧
    (d.elementCount ≠ 0 → (insert CAPACITY ops d r).1 = d) ∧
    (d.elementCount = 0 → (insert CAPACITY ops d r).1 =
      { hashTable := some (List.replicate CAPACITY none), elementCount := 0 }) := by
  rcases insert_cases CAPACITY ops d r with ⟨e2, he⟩ | ⟨hi, t, _, _, _, _, _, he⟩
  · rw [he]
    exact ⟨materialize_elementCount _ _, materialize_of_ne_zero _ _, materialize_of_eq_zero _ _⟩
  · rw [he] at hfail
    cases hfail

/-- C5: for `CAPACITY ≤ 2^31` and every list of `CAPACITY + 1` records with
well-formed keys of which no earlier one is equal to a later one, inserted one after
another into an initially empty Dictionary, each of the first `CAPACITY` inserts
returns normally and the last one throws `UnableToInsertException`. -/
theorem C5_capacity_exhaustion {α : Type} (CAPACITY : Nat) (ops : ProfileOps α)
    (hC : CAPACITY ≤ 2147483648) (xs : List α)
    (hlen : xs.length = CAPACITY + 1)
    (hneq : xs.Pairwise (fun a b => ops.eq a b = false))
    (hkeys : ∀ x ∈ xs, ∃ v, stoul (ops.getUserName x) = .ok v) :
    (∀ k, k < CAPACITY → ∃ x, xs[k]? = some x ∧
      (insert CAPACITY ops (insertAll CAPACITY ops empty (xs.take k)) x).2 = .ok ()) ∧
    (∃ x, xs[CAPACITY]? = some x ∧
      (insert CAPACITY ops (insertAll CAPACITY ops empty (xs.take CAPACITY)) x).2
        = .error .unableToInsert) := by
  have hmain := elementCount_insertAll_take CAPACITY ops hC xs hneq hkeys
  constructor
  · intro k hk
    have hx : xs[k]? = some (xs[k]) := List.getElem?_eq_getElem (by omega)
    exact ⟨_, hx, ((hmain k (by omega) (by omega)).2 _ hx hk).1⟩
  · have hx : xs[CAPACITY]? = some (xs[CAPACITY]) := List.getElem?_eq_getElem (by omega)
    refine ⟨_, hx, ?_⟩
    have hfull := (hmain CAPACITY (Nat.le_refl _) (by omega)).1
    unfold insert
    simp only [materialize_elementCount, hfull, if_true]

/-! ## The concrete scenarios (`CAPACITY = 17`) -/

theorem profileOps_key (a b : Profile) (h : profileOps.eq a b = true) :
    profileOps.getUserName a = profileOps.getUserName b := by
  simpa [profileOps] using h

theorem stoul_ok_of_toBool {key : String} (h : (stoul key).toBool = true) :
    ∃ v, stoul key = .ok v := by
  cases hs : stoul key with
  | error e => rw [hs] at h; cases h
  | ok v => exact ⟨v, rfl⟩

theorem eighteenProfiles_keys :
    ∀ x ∈ eighteenProfiles, ∃ v, stoul (profileOps.getUserName x) = .ok v := by
  have h : eighteenProfiles.all (fun x => (stoul (profileOps.getUserName x)).toBool) = true := by
    decide
  intro x hx
  exact stoul_ok_of_toBool (List.all_eq_true.mp h x hx)

/-- C1 (the code at the failing input): with `CAPACITY = 17`, `insert(p160)` and then
`insert(p432)` both return normally, the two records are not equal, and a `get` with
target `p160` after them throws `ElementDoesNotExistException`. -/
theorem C1_inserted_record_not_found :
    (insert 17 profileOps empty p160).2 = .ok () ∧
    (insert 17 profileOps d160 p432).2 = .ok () ∧
    profileOps.eq p160 p432 = false ∧
    (insert 17 profileOps d160 p432).1 = d160_432 ∧
    get 17 profileOps d160_432 p160 = .error .elementDoesNotExist := by
  decide

/-- C2 (the code at the failing input): with `CAPACITY = 17` and `p160` in cell 10,
`insert(p432)` returns normally with `hashFunction = 10`; cell 11, the first `nullptr`
cell of the probe sequence, is still `nullptr` afterwards and cell 10 no longer holds
`p160` but `p432`. -/
theorem C2_insert_overwrites_home_cell :
    hashFunction 17 (profileOps.getUserName p432) = .ok 10 ∧
    occupant d160 10 = some p160 ∧
    occupant d160 11 = none ∧
    (insert 17 profileOps d160 p432).2 = .ok () ∧
    occupant (insert 17 profileOps d160 p432).1 11 = none ∧
    occupant (insert 17 profileOps d160 p432).1 10 = some p432 := by
  decide

/-- C3 (counterexample): with `CAPACITY = 17` and seventeen records stored, cell 10
holds `p160`, yet `insert(p160)` throws `UnableToInsertException`, not
`ElementAlreadyExistsException`. -/
theorem C3_duplicate_in_full_dictionary :
    occupant dFull 10 = some p160 ∧
    profileOps.eq p160 p160 = true ∧
    (insert 17 profileOps dFull p160).2 = .error .unableToInsert ∧
    (insert 17 profileOps dFull p160).2 ≠ .error .elementAlreadyExists := by
  decide

/-- C3 (witness): after `insert(p160)` and `insert(p336)` with `CAPACITY = 17`,
inserting `q160`, which `p160` is equal to, is rejected and changes nothing. -/
theorem C3_duplicate_rejected_witness :
    (insertAll 17 profileOps empty [p160, p336]).elementCount < 17 ∧
    occupant (insertAll 17 profileOps empty [p160, p336]) 10 = some p160 ∧
    profileOps.eq p160 q160 = true ∧
    ((insert 17 profileOps (insertAll 17 profileOps empty [p160, p336]) q160).2
        = .error .elementAlreadyExists ∧
      getElementCount (insert 17 profileOps (insertAll 17 profileOps empty [p160, p336]) q160).1
        = getElementCount (insertAll 17 profileOps empty [p160, p336]) ∧
      (insert 17 profileOps (insertAll 17 profileOps empty [p160, p336]) q160).1
        = insertAll 17 profileOps empty [p160, p336]) :=
  ⟨by decide, by decide, by decide,
    C3_duplicate_rejected_when_not_full 17 profileOps (by decide) profileOps_key [p160, p336]
      q160 p160 10 (by decide) (by decide) (by decide)⟩

/-- C4 (witness): after `insert(p160)` and `insert(p336)` with `CAPACITY = 17`, the
records of cells 4 and 10 are not equal. -/
theorem C4_uniqueness_witness :
    (4 ≠ 10 ∧ occupant (insertAll 17 profileOps empty [p160, p336]) 4 = some p336 ∧
      occupant (insertAll 17 profileOps empty [p160, p336]) 10 = some p160) ∧
    profileOps.eq p336 p160 = false :=
  ⟨⟨by decide, by decide, by decide⟩,
    C4_uniqueness 17 profileOps profileOps_key [p160, p336] 4 10 p336 p160 (by decide)
      (by decide) (by decide)⟩

/-- C5 (witness): `CAPACITY = 17` and the eighteen records of `eighteenProfiles`. -/
theorem C5_capacity_exhaustion_witness :
    (17 ≤ 2147483648 ∧ eighteenProfiles.length = 17 + 1) ∧
    ((∀ k, k < 17 → ∃ x, eighteenProfiles[k]? = some x ∧
      (insert 17 profileOps (insertAll 17 profileOps empty (eighteenProfiles.take k)) x).2
        = .ok ()) ∧
    (∃ x, eighteenProfiles[17]? = some x ∧
      (insert 17 profileOps (insertAll 17 profileOps empty (eighteenProfiles.take 17)) x).2
        = .error .unableToInsert)) :=
  ⟨⟨by decide, by decide⟩,
    C5_capacity_exhaustion 17 profileOps (by decide) eighteenProfiles (by decide) (by decide)
      eighteenProfiles_keys⟩

/-- C7 (the code at the failing input): with `CAPACITY = 17`, after `insert(p160)` and
`insert(p432)` have both returned normally, `getElementCount()` is 2 while one cell
only holds a record. -/
theorem C7_count_exceeds_stored_records :
    (insert 17 profileOps empty p160).2 = .ok () ∧
    (insert 17 profileOps d160 p432).2 = .ok () ∧
    getElementCount d160_432 = 2 ∧
    occupiedCount d160_432 = 1 := by
  decide

/-- C8 (witness): after `insert(p160)` and `insert(p336)` with `CAPACITY = 17`, a get
with the target `q160`, which the stored `p160` is equal to, returns `p160`. -/
theorem C8_lookup_complete_witness :
    (0 < (insertAll 17 profileOps empty [p160, p336]).elementCount ∧
      occupant (insertAll 17 profileOps empty [p160, p336]) 10 = some p160 ∧
      profileOps.eq p160 q160 = true) ∧
    get 17 profileOps (insertAll 17 profileOps empty [p160, p336]) q160 = .ok p160 :=
  ⟨⟨by decide, by decide, by decide⟩,
    C8_lookup_complete 17 profileOps profileOps_key [p160, p336] q160 p160 10 (by decide)
      (by decide) (by decide)⟩

/-- C9 (witness): with `CAPACITY = 17`, the get of `q160` on the Dictionary holding
`p160` and `p336` returns `p160`. -/
theorem C9_lookup_sound_witness :
    (0 < d160_336.elementCount ∧ get 17 profileOps d160_336 q160 = .ok p160) ∧
    ∃ start i, hashFunction 17 (profileOps.getUserName q160) = .ok start ∧ i < 17 ∧
      occupant d160_336 ((start + i) % 17) = some p160 ∧ profileOps.eq p160 q160 = true ∧
      (∀ j, j < i → ∃ p, occupant d160_336 ((start + j) % 17) = some p ∧
        profileOps.eq p q160 = false) ∧
      (∀ j, j < i → ¬ ∃ p, occupant d160_336 ((start + j) % 17) = some p ∧
        profileOps.eq p q160 = true) :=
  ⟨⟨by decide, by decide⟩,
    C9_lookup_sound 17 profileOps (by decide) d160_336 q160 p160 (by decide) (by decide)⟩

/-- C10 (counterexample): with `CAPACITY = 17`, `insert` of a record whose key is not a
number into the freshly constructed Dictionary throws `std::invalid_argument` and
leaves a state that is not the one before the call: the array is now allocated. -/
theorem C10_failed_insert_allocates :
    (insert 17 profileOps empty pBad).2 = .error .invalidArgument ∧
    (insert 17 profileOps empty pBad).1 ≠ empty ∧
    (empty : State Profile).hashTable = none ∧
    (insert 17 profileOps empty pBad).1.hashTable = some (List.replicate 17 none) := by
  decide

/-- C10 (witness): the failing insert of `pBad` into the freshly constructed
Dictionary with `CAPACITY = 17`. -/
theorem C10_insert_failure_state_witness :
    (insert 17 profileOps empty pBad).2 = .error .invalidArgument ∧
    ((insert 17 profileOps empty pBad).1.elementCount = (empty : State Profile).elementCount ∧
    ((empty : State Profile).elementCount ≠ 0 → (insert 17 profileOps empty pBad).1 = empty) ∧
    ((empty : State Profile).elementCount = 0 → (insert 17 profileOps empty pBad).1 =
      { hashTable := some (List.replicate 17 none), elementCount := 0 })) :=
  ⟨by decide, C10_insert_failure_state 17 profileOps empty pBad .invalidArgument (by decide)⟩

/-! ## The traced loops -/

/-- The traced loop of `insert` ends the way the loop of `insert` does. -/
theorem insertLoopTrace_fst {α : Type} (CAPACITY : Nat) (ops : ProfileOps α)
    (t : List (Option α)) (hashIndex : Nat) (x : α) :
    ∀ fuel i count, (insertLoopTrace CAPACITY ops t hashIndex x fuel i count).1
      = insertLoop CAPACITY ops t hashIndex x fuel i count := by
  intro fuel
  induction fuel with
  | zero => intro i count; rfl
  | succ fuel ih =>
    intro i count
    simp only [insertLoopTrace, insertLoop]
    split
    · rfl
    · rfl
    · split
      · rfl
      · split
        · rfl
        · exact ih _ _

/-- The traced loop of `get` ends the way the loop of `get` does. -/
theorem getLoopTrace_fst {α : Type} (CAPACITY : Nat) (ops : ProfileOps α)
    (t : List (Option α)) (hashIndex : Nat) (q : α) :
    ∀ fuel i count, (getLoopTrace CAPACITY ops t hashIndex q fuel i count).1
      = getLoop CAPACITY ops t hashIndex q fuel i count := by
  intro fuel
  induction fuel with
  | zero => intro i count; rfl
  | succ fuel ih =>
    intro i count
    simp only [getLoopTrace, getLoop]
    split
    · rfl
    · rfl
    · split
      · rfl
      · split
        · rfl
        · exact ih _ _

/-- The loop of `insert`, started as `insert` starts it, stops by itself after at most
`CAPACITY` probes, and the probes are at `probeIndex` of `i, i + 1, ...` in this
order. -/
theorem insertLoopTrace_spec {α : Type} (CAPACITY : Nat) (ops : ProfileOps α)
    (t : List (Option α)) (hashIndex : Nat) (x : α) (hC : CAPACITY < UINT_RANGE) :
    ∀ fuel i, i + fuel = CAPACITY → 0 < fuel →
      (insertLoopTrace CAPACITY ops t hashIndex x fuel i i).1 ≠ .error .fuelExhausted ∧
      ∃ n, 0 < n ∧ i + n ≤ CAPACITY ∧
        (insertLoopTrace CAPACITY ops t hashIndex x fuel i i).2
          = (List.range' i n).map (probeIndex CAPACITY hashIndex) := by
  intro fuel
  induction fuel with
  | zero => intro i _ h; exact absurd h (Nat.lt_irrefl 0)
  | succ fuel ih =>
    intro i hi _
    have hi1 : (i + 1) % UINT_RANGE = i + 1 := Nat.mod_eq_of_lt (by omega)
    have hone : ∃ n, 0 < n ∧ i + n ≤ CAPACITY ∧
        [probeIndex CAPACITY hashIndex i] = (List.range' i n).map (probeIndex CAPACITY hashIndex) :=
      ⟨1, Nat.one_pos, by omega, rfl⟩
    simp only [insertLoopTrace, hi1]
    split
    · exact ⟨by simp, hone⟩
    · exact ⟨by simp, hone⟩
    · split
      · exact ⟨by simp, hone⟩
      · split
        · exact ⟨by simp, hone⟩
        · rename_i hfull
          obtain ⟨h1, n, hn1, hn2, hn3⟩ := ih (i + 1) (by omega) (by omega)
          refine ⟨h1, n + 1, Nat.succ_pos _, by omega, ?_⟩
          simp only [hn3, List.range'_succ, List.map_cons]

/-- The loop of `get`, started as `get` starts it, stops by itself after at most
`CAPACITY` probes, and the probes are at `probeIndex` of `i, i + 1, ...` in this
order. -/
theorem getLoopTrace_spec {α : Type} (CAPACITY : Nat) (ops : ProfileOps α)
    (t : List (Option α)) (hashIndex : Nat) (q : α) (hC : CAPACITY < UINT_RANGE) :
    ∀ fuel i, i + fuel = CAPACITY → 0 < fuel →
      (getLoopTrace CAPACITY ops t hashIndex q fuel i i).1 ≠ .error .fuelExhausted ∧
      ∃ n, 0 < n ∧ i + n ≤ CAPACITY ∧
        (getLoopTrace CAPACITY ops t hashIndex q fuel i i).2
          = (List.range' i n).map (probeIndex CAPACITY hashIndex) := by
  intro fuel
  induction fuel with
  | zero => intro i _ h; exact absurd h (Nat.lt_irrefl 0)
  | succ fuel ih =>
    intro i hi _
    have hi1 : (i + 1) % UINT_RANGE = i + 1 := Nat.mod_eq_of_lt (by omega)
    have hone : ∃ n, 0 < n ∧ i + n ≤ CAPACITY ∧
        [probeIndex CAPACITY hashIndex i] = (List.range' i n).map (probeIndex CAPACITY hashIndex) :=
      ⟨1, Nat.one_pos, by omega, rfl⟩
    simp only [getLoopTrace, hi1]
    split
    · exact ⟨by simp, hone⟩
    · exact ⟨by simp, hone⟩
    · split
      · exact ⟨by simp, hone⟩
      · split
        · exact ⟨by simp, hone⟩
        · rename_i hfull
          obtain ⟨h1, n, hn1, hn2, hn3⟩ := ih (i + 1) (by omega) (by omega)
          refine ⟨h1, n + 1, Nat.succ_pos _, by omega, ?_⟩
          simp only [hn3, List.range'_succ, List.map_cons]

/-- Without wrap-around of the index sum, the first `n ≤ CAPACITY` probes are at the
indices `(start + i) mod CAPACITY`. -/
theorem map_probeIndex_eq {CAPACITY start n : Nat} (hC : CAPACITY ≤ 2147483648)
    (hs : start < CAPACITY) (hn : n ≤ CAPACITY) :
    (List.range' 0 n).map (probeIndex CAPACITY start) = probeSequence CAPACITY start n := by
  unfold probeSequence
  rw [List.range_eq_range']
  apply List.map_congr_left
  intro i hi
  have : i < n := by
    rw [List.mem_range'_1] at hi
    omega
  exact probeIndex_eq hC hs (by omega)

theorem probeSequence_lt {CAPACITY start n idx : Nat} (hpos : 0 < CAPACITY)
    (h : idx ∈ probeSequence CAPACITY start n) : idx < CAPACITY := by
  unfold probeSequence at h
  obtain ⟨i, _, hi⟩ := List.mem_map.mp h
  rw [← hi]
  exact Nat.mod_lt _ hpos

/-! ## Keys and the hash function -/

theorem isDigit_toNat {c : Char} (h : c.isDigit = true) : 48 ≤ c.toNat ∧ c.toNat ≤ 57 := by
  simp only [Char.isDigit, Bool.and_eq_true, decide_eq_true_eq] at h
  obtain ⟨h1, h2⟩ := h
  rw [ge_iff_le, UInt32.le_def] at h1
  rw [UInt32.le_def] at h2
  exact ⟨h1, h2⟩

theorem digitsValue_append (ds : List Char) (c : Char) :
    digitsValue (ds ++ [c]) = 10 * digitsValue ds + (c.toNat - 48) := by
  unfold digitsValue
  rw [List.foldl_append]
  rfl

/-- The digit loop of the model of `stoul` computes the base-10 value. -/
theorem digitsValue_eq_ofDigits (ds : List Char) :
    digitsValue ds = Nat.ofDigits 10 (ds.reverse.map (fun c => c.toNat - 48)) := by
  induction ds using List.reverseRecOn with
  | nil => rfl
  | append_singleton ds c ih =>
    rw [digitsValue_append, ih, List.reverse_append, List.reverse_singleton,
      List.singleton_append, List.map_cons, Nat.ofDigits_cons]
    show 10 * _ + _ = _ + 10 * _
    omega

/-- On a non-empty string of decimal digits whose value fits `unsigned long`, `stoul`
returns that value. -/
theorem stoul_of_digits (key : String) (hne : key.data ≠ [])
    (hdig : ∀ c ∈ key.data, c.isDigit = true) (hrep : keyValue key < ULONG_RANGE) :
    stoul key = .ok (keyValue key) := by
  have hval : digitsValue key.data = keyValue key := digitsValue_eq_ofDigits key.data
  rcases hdata : key.data with _ | ⟨c, rest⟩
  · exact absurd hdata hne
  · have hc := isDigit_toNat (hdig c (by rw [hdata]; exact List.mem_cons_self _ _))
    have hspace : isspace c = false := by
      simp only [isspace, Bool.or_eq_false_iff, Bool.and_eq_false_iff, decide_eq_false_iff_not]
      omega
    have hminus : c ≠ '-' := by
      intro h; rw [h] at hc; revert hc; decide
    have hplus : c ≠ '+' := by
      intro h; rw [h] at hc; revert hc; decide
    have htake : (c :: rest).takeWhile Char.isDigit = c :: rest :=
      List.takeWhile_eq_self_iff.mpr (by rw [← hdata]; exact hdig)
    have hlt : ¬ ULONG_RANGE ≤ digitsValue (c :: rest) := by
      rw [← hdata, hval]; omega
    simp only [stoul, hdata, List.dropWhile_cons, hspace, Bool.false_eq_true, if_false, hminus,
      hplus, htake, List.isEmpty_cons, hlt]
    rw [← hdata, hval]

/-- The loop of `get` throws nothing but `ElementDoesNotExistException`; the other
ways it can end in the model are undefined behaviour and the recursion bound. -/
theorem getLoop_error {α : Type} (CAPACITY : Nat) (ops : ProfileOps α) (t : List (Option α))
    (hashIndex : Nat) (q : α) (e : Error) :
    ∀ fuel i count, getLoop CAPACITY ops t hashIndex q fuel i count = .error e →
      e = .elementDoesNotExist ∨ e = .undefinedBehaviour ∨ e = .fuelExhausted := by
  intro fuel
  induction fuel with
  | zero =>
    intro i count h
    simp only [getLoop] at h
    injection h with h
    exact Or.inr (Or.inr h.symm)
  | succ fuel ih =>
    intro i count h
    simp only [getLoop] at h
    split at h
    · injection h with h; exact Or.inr (Or.inl h.symm)
    · injection h with h; exact Or.inl h.symm
    · split at h
      · cases h
      · split at h
        · injection h with h; exact Or.inl h.symm
        · exact ih _ _ h

theorem hashFunction_error {CAPACITY : Nat} {key : String} {e : Error}
    (h : hashFunction CAPACITY key = .error e) :
    e = .invalidArgument ∨ e = .outOfRange ∨ e = .undefinedBehaviour := by
  unfold hashFunction at h
  split at h
  · rename_i e2 hs
    injection h with h
    subst h
    rcases stoul_error hs with h1 | h1
    · exact Or.inl h1
    · exact Or.inr (Or.inl h1)
  · split at h
    · injection h with h; exact Or.inr (Or.inr h.symm)
    · cases h

theorem printLoop_error {α : Type} (ops : ProfileOps α) (t : List (Option α)) (e : Error) :
    ∀ n i, printLoop ops t n i = .error e → e = .undefinedBehaviour := by
  intro n
  induction n with
  | zero => intro i h; simp [printLoop] at h
  | succ n ih =>
    intro i h
    simp only [printLoop] at h
    split at h
    · injection h with h; exact h.symm
    · split at h
      · rename_i e2 he
        injection h with h
        subst h
        exact ih _ he
      · split at h <;> cases h

/-- Where the loop of `insert` stops on an array of `CAPACITY` cells: at the first probed
cell that is `nullptr` or holds a record equal to the new one, every cell probed before
holding an unequal record; or after `CAPACITY` probes that all met such a record. -/
theorem insertLoop_stop {α : Type} (CAPACITY : Nat) (ops : ProfileOps α) (t : List (Option α))
    (hashIndex : Nat) (x : α) (hC : CAPACITY < UINT_RANGE) (hlen : t.length = CAPACITY) :
    ∀ fuel i, i + fuel = CAPACITY → 0 < fuel →
      (∃ k, i ≤ k ∧ k < CAPACITY ∧
        (∀ j, i ≤ j → j < k →
          ∃ p, t[probeIndex CAPACITY hashIndex j]? = some (some p) ∧ ops.eq p x = false) ∧
        ((t[probeIndex CAPACITY hashIndex k]? = some none ∧
            insertLoop CAPACITY ops t hashIndex x fuel i i = .ok ()) ∨
          (∃ p, t[probeIndex CAPACITY hashIndex k]? = some (some p) ∧ ops.eq p x = true ∧
            insertLoop CAPACITY ops t hashIndex x fuel i i = .error .elementAlreadyExists))) ∨
      (insertLoop CAPACITY ops t hashIndex x fuel i i = .error .unableToInsert ∧
        ∀ j, i ≤ j → j < CAPACITY →
          ∃ p, t[probeIndex CAPACITY hashIndex j]? = some (some p) ∧ ops.eq p x = false) := by
  intro fuel
  induction fuel with
  | zero => intro i _ h; exact absurd h (Nat.lt_irrefl 0)
  | succ fuel ih =>
    intro i hi _
    have hi1 : (i + 1) % UINT_RANGE = i + 1 := Nat.mod_eq_of_lt (by omega)
    have hpos : 0 < CAPACITY := by omega
    have hidx : probeIndex CAPACITY hashIndex i < t.length := by
      rw [hlen]; exact Nat.mod_lt _ hpos
    have hnone : ∀ j, i ≤ j → j < i →
        ∃ p, t[probeIndex CAPACITY hashIndex j]? = some (some p) ∧ ops.eq p x = false :=
      fun j h1 h2 => absurd h1 (by omega)
    rcases hcell : t[probeIndex CAPACITY hashIndex i]? with _ | cell
    · rw [List.getElem?_eq_none_iff] at hcell
      omega
    · cases cell with
      | none =>
        refine Or.inl ⟨i, Nat.le_refl _, by omega, hnone, Or.inl ⟨hcell, ?_⟩⟩
        simp only [insertLoop, hcell]
      | some stored =>
        by_cases heq : ops.eq stored x = true
        · refine Or.inl ⟨i, Nat.le_refl _, by omega, hnone, Or.inr ⟨stored, hcell, heq, ?_⟩⟩
          simp only [insertLoop, hcell, heq, if_true]
        · have heq2 : ops.eq stored x = false := by simpa using heq
          have hfirst : ∀ j, i ≤ j → j < i + 1 →
              ∃ p, t[probeIndex CAPACITY hashIndex j]? = some (some p) ∧ ops.eq p x = false := by
            intro j h1 h2
            have : j = i := by omega
            subst this
            exact ⟨stored, hcell, heq2⟩
          have hstep : insertLoop CAPACITY ops t hashIndex x (fuel + 1) i i
              = if i + 1 = CAPACITY then .error .unableToInsert
                else insertLoop CAPACITY ops t hashIndex x fuel (i + 1) (i + 1) := by
            simp only [insertLoop, hcell, heq2, hi1, Bool.false_eq_true, if_false]
          rw [hstep]
          by_cases hfull : i + 1 = CAPACITY
          · rw [if_pos hfull]
            exact Or.inr ⟨rfl, fun j h1 h2 => hfirst j h1 (by omega)⟩
          · rw [if_neg hfull]
            rcases ih (i + 1) (by omega) (by omega) with ⟨k, hk1, hk2, hk3, hk4⟩ | ⟨h1, hk⟩
            · refine Or.inl ⟨k, by omega, hk2, fun j hj1 hj2 => ?_, hk4⟩
              by_cases hji : j < i + 1
              · exact hfirst j hj1 hji
              · exact hk3 j (by omega) hj2
            · refine Or.inr ⟨h1, fun j hj1 hj2 => ?_⟩
              by_cases hji : j < i + 1
              · exact hfirst j hj1 hji
              · exact hk j (by omega) hj2

/-- The loop of `printDictionary` on an array that has the cells it visits: one line for
each visited cell that holds a record, in the order of the indices. -/
theorem printLoop_eq {α : Type} (ops : ProfileOps α) (t : List (Option α)) :
    ∀ n i, i + n ≤ t.length →
      printLoop ops t n i
        = .ok ((List.range' i n).filterMap (fun idx => (t[idx]?.join).map (cellLine ops idx))) := by
  intro n
  induction n with
  | zero => intro i _; rfl
  | succ n ih =>
    intro i hi
    have hlt : i < t.length := by omega
    have hcell : t[i]? = some t[i] := List.getElem?_eq_getElem hlt
    simp only [printLoop, hcell, ih (i + 1) (by omega), List.range'_succ, List.filterMap_cons,
      Option.join]
    cases t[i] with
    | none => rfl
    | some stored => rfl

/-- What `printDictionary` writes for a Dictionary with a positive count and an
allocated array of `CAPACITY` cells: an empty line, the summary line with
`elementCount`, then one line for each cell that holds a record, by ascending index. -/
theorem printDictionary_eq {α : Type} (CAPACITY : Nat) (ops : ProfileOps α) (d : State α)
    (t : List (Option α)) (hcount : d.elementCount ≠ 0) (ht : d.hashTable = some t)
    (hlen : t.length = CAPACITY) :
    printDictionary CAPACITY ops d = .ok ("" :: summaryLine d.elementCount ::
      (List.range CAPACITY).filterMap (fun idx => (occupant d idx).map (cellLine ops idx))) := by
  unfold printDictionary
  simp only [hcount, if_false, ht, printLoop_eq ops t CAPACITY 0 (by omega), occupant,
    List.range_eq_range']
  rfl

/-! ## The claims on hashing, gating, probing and printing -/

/-- C11: for a key that is a non-empty string of decimal digits whose value `v` fits
`unsigned long`, and `0 < CAPACITY` (a constant of type `unsigned int`),
`hashFunction(key)` is `(v / 16) mod CAPACITY`, a value below `CAPACITY`; it is a
function of the key and `CAPACITY` alone. -/
theorem C11_hash_value (CAPACITY : Nat) (key : String) (hpos : 0 < CAPACITY)
    (hC : CAPACITY < UINT_RANGE) (hne : key.data ≠ [])
    (hdig : ∀ c ∈ key.data, c.isDigit = true) (hrep : keyValue key < ULONG_RANGE) :
    hashFunction CAPACITY key = .ok ((keyValue key / 16) % CAPACITY) ∧
    0 ≤ (keyValue key / 16) % CAPACITY ∧ (keyValue key / 16) % CAPACITY < CAPACITY := by
  have hlt : (keyValue key / 16) % CAPACITY < CAPACITY := Nat.mod_lt _ hpos
  refine ⟨?_, Nat.zero_le _, hlt⟩
  rw [hashFunction_of_stoul (stoul_of_digits key hne hdig hrep) hpos,
    Nat.mod_eq_of_lt (Nat.lt_trans hlt hC)]

/-- C12: on the freshly constructed Dictionary get and printDictionary throw
`EmptyDataCollectionException`, `getElementCount()` is 0 and `getCapacity()` is
`CAPACITY`; and in every state get, and likewise printDictionary, throws
`EmptyDataCollectionException` exactly when `elementCount = 0`. -/
theorem C12_emptiness_gating {α : Type} (CAPACITY : Nat) (ops : ProfileOps α) (d : State α)
    (q : α) :
    get CAPACITY ops empty q = .error .emptyDataCollection ∧
    printDictionary CAPACITY ops (empty : State α) = .error .emptyDataCollection ∧
    getElementCount (empty : State α) = 0 ∧
    getCapacity CAPACITY = CAPACITY ∧
    (get CAPACITY ops d q = .error .emptyDataCollection ↔ d.elementCount = 0) ∧
    (printDictionary CAPACITY ops d = .error .emptyDataCollection ↔ d.elementCount = 0) := by
  refine ⟨rfl, rfl, rfl, rfl, ⟨fun h => ?_, fun h => ?_⟩, ⟨fun h => ?_, fun h => ?_⟩⟩
  · by_contra hne
    unfold get at h
    rw [if_neg hne] at h
    split at h
    · rename_i e he
      injection h with h
      subst h
      rcases hashFunction_error he with h1 | h1 | h1 <;> cases h1
    · split at h
      · cases h
      · rcases getLoop_error _ _ _ _ _ _ _ _ _ h with h1 | h1 | h1 <;> cases h1
  · unfold get
    rw [if_pos h]
  · by_contra hne
    unfold printDictionary at h
    rw [if_neg hne] at h
    split at h
    · split at h <;> cases h
    · split at h
      · rename_i e he
        injection h with h
        subst h
        cases printLoop_error _ _ _ _ _ he
      · cases h
  · unfold printDictionary
    rw [if_pos h]

/-- C13: in a state reached from the empty Dictionary by insert calls (with
`CAPACITY ≤ 2^31`), an insert that throws `UnableToInsertException` found
`elementCount = CAPACITY`; and when `elementCount ≠ CAPACITY` and the key hashes to
`start`, the loop of insert stops after `k < CAPACITY` collisions with unequal records,
at a `nullptr` cell (the loop ends normally) or at a record equal to the new one
(`ElementAlreadyExistsException`). -/
theorem C13_loop_finds_cell {α : Type} (CAPACITY : Nat) (ops : ProfileOps α)
    (hC : CAPACITY ≤ 2147483648) (xs : List α) (x : α) :
    ((insert CAPACITY ops (insertAll CAPACITY ops empty xs) x).2 = .error .unableToInsert →
      (insertAll CAPACITY ops empty xs).elementCount = CAPACITY) ∧
    ∀ start t, (insertAll CAPACITY ops empty xs).elementCount ≠ CAPACITY →
      hashFunction CAPACITY (ops.getUserName x) = .ok start →
      (materialize CAPACITY (insertAll CAPACITY ops empty xs)).hashTable = some t →
      ∃ k, k < CAPACITY ∧
        (∀ j, j < k →
          ∃ p, t[(start + j) % CAPACITY]? = some (some p) ∧ ops.eq p x = false) ∧
        ((t[(start + k) % CAPACITY]? = some none ∧
            insertLoop CAPACITY ops t start x CAPACITY 0 0 = .ok ()) ∨
          (∃ p, t[(start + k) % CAPACITY]? = some (some p) ∧ ops.eq p x = true ∧
            insertLoop CAPACITY ops t start x CAPACITY 0 0 = .error .elementAlreadyExists)) := by
  have hR : CAPACITY < UINT_RANGE := by unfold UINT_RANGE; omega
  have hinv := inv_insertAll CAPACITY ops hR xs empty (inv_empty CAPACITY)
  generalize insertAll CAPACITY ops empty xs = d at *
  have hminv := inv_materialize CAPACITY d hinv
  have hcnt := materialize_elementCount CAPACITY d
  have hloop : ∀ start t, d.elementCount ≠ CAPACITY →
      hashFunction CAPACITY (ops.getUserName x) = .ok start →
      (materialize CAPACITY d).hashTable = some t →
      ∃ k, k < CAPACITY ∧
        (∀ j, j < k →
          ∃ p, t[(start + j) % CAPACITY]? = some (some p) ∧ ops.eq p x = false) ∧
        ((t[(start + k) % CAPACITY]? = some none ∧
            insertLoop CAPACITY ops t start x CAPACITY 0 0 = .ok ()) ∨
          (∃ p, t[(start + k) % CAPACITY]? = some (some p) ∧ ops.eq p x = true ∧
            insertLoop CAPACITY ops t start x CAPACITY 0 0 = .error .elementAlreadyExists)) := by
    intro start t hne hh ht
    obtain ⟨hpos, hlt⟩ := hashFunction_lt hh
    have hlen := hminv.length_eq t ht
    rcases insertLoop_stop CAPACITY ops t start x hR hlen CAPACITY 0 (Nat.zero_add _) hpos with
      ⟨k, _, hk2, hk3, hk4⟩ | ⟨_, hall⟩
    · refine ⟨k, hk2, fun j hj => ?_, ?_⟩
      · have := hk3 j (Nat.zero_le _) hj
        rwa [probeIndex_eq hC hlt (by omega)] at this
      · rwa [probeIndex_eq hC hlt hk2] at hk4
    · have hfull := countP_of_all_probed CAPACITY start t hC hlt hlen
        (fun j hj => (hall j (Nat.zero_le _) hj).imp fun p hp => hp.1)
      have hocc := hminv.occupied_le
      have hle := hinv.count_le
      simp only [occupiedCount, ht] at hocc
      omega
  refine ⟨fun hfail => ?_, hloop⟩
  by_contra hne
  have hne2 : (materialize CAPACITY d).elementCount ≠ CAPACITY := by rw [hcnt]; exact hne
  cases hh : hashFunction CAPACITY (ops.getUserName x) with
  | error e =>
    have hres : (insert CAPACITY ops d x).2 = .error e := by
      unfold insert
      simp only [hne2, if_false, hh]
    rw [hres] at hfail
    injection hfail with hfail
    subst hfail
    rcases hashFunction_error hh with h1 | h1 | h1 <;> cases h1
  | ok start =>
    obtain ⟨t, ht, hlen⟩ := materialize_hashTable CAPACITY d hinv
    obtain ⟨_, hlt⟩ := hashFunction_lt hh
    obtain ⟨k, _, _, ⟨_, h1⟩ | ⟨p, _, _, h1⟩⟩ := hloop start t hne hh ht
    · rw [insert_of_loop_ok CAPACITY ops d x start t hne2 hh ht h1 (by omega)] at hfail
      cases hfail
    · rw [insert_of_loop_error CAPACITY ops d x start t _ hne2 hh ht h1] at hfail
      cases hfail

/-- C14: for `0 < CAPACITY ≤ 2^31`, every array `t` of cells and every record with a
well-formed key, hashing to `start`, the loops of insert and get stop by themselves
after examining `n` cells, `1 ≤ n ≤ CAPACITY`; the cells examined are those at the
indices `(start + i) mod CAPACITY` for `i = 0, ..., n - 1`, in this order, and each
such index is below `CAPACITY`. -/
theorem C14_probe_bound {α : Type} (CAPACITY : Nat) (ops : ProfileOps α)
    (hpos : 0 < CAPACITY) (hC : CAPACITY ≤ 2147483648) (t : List (Option α)) (x : α)
    (hkey : ∃ v, stoul (ops.getUserName x) = .ok v) :
    ∃ start, hashFunction CAPACITY (ops.getUserName x) = .ok start ∧
      (insertLoop CAPACITY ops t start x CAPACITY 0 0 ≠ .error .fuelExhausted ∧
        ∃ n, 0 < n ∧ n ≤ CAPACITY ∧
          (insertLoopTrace CAPACITY ops t start x CAPACITY 0 0).2
            = probeSequence CAPACITY start n) ∧
      (getLoop CAPACITY ops t start x CAPACITY 0 0 ≠ .error .fuelExhausted ∧
        ∃ n, 0 < n ∧ n ≤ CAPACITY ∧
          (getLoopTrace CAPACITY ops t start x CAPACITY 0 0).2
            = probeSequence CAPACITY start n) ∧
      ∀ n idx, idx ∈ probeSequence CAPACITY start n → idx < CAPACITY := by
  have hR : CAPACITY < UINT_RANGE := by unfold UINT_RANGE; omega
  obtain ⟨v, hv⟩ := hkey
  have hh := hashFunction_of_stoul hv hpos
  obtain ⟨_, hlt⟩ := hashFunction_lt hh
  refine ⟨_, hh, ?_, ?_, fun n idx h => probeSequence_lt hpos h⟩
  · obtain ⟨h1, n, hn1, hn2, hn3⟩ :=
      insertLoopTrace_spec CAPACITY ops t _ x hR CAPACITY 0 (Nat.zero_add _) hpos
    rw [insertLoopTrace_fst] at h1
    refine ⟨h1, n, hn1, by omega, ?_⟩
    rw [hn3, map_probeIndex_eq hC hlt (by omega)]
  · obtain ⟨h1, n, hn1, hn2, hn3⟩ :=
      getLoopTrace_spec CAPACITY ops t _ x hR CAPACITY 0 (Nat.zero_add _) hpos
    rw [getLoopTrace_fst] at h1
    refine ⟨h1, n, hn1, by omega, ?_⟩
    rw [hn3, map_probeIndex_eq hC hlt (by omega)]

/-- C16: in every state reached from the empty Dictionary by insert calls, a record
held in cell `i` has a key that hashes to `i`. -/
theorem C16_home_slot {α : Type} (CAPACITY : Nat) (ops : ProfileOps α) (xs : List α)
    (i : Nat) (p : α) (h : occupant (insertAll CAPACITY ops empty xs) i = some p) :
    hashFunction CAPACITY (ops.getUserName p) = .ok i :=
  homeSlots_insertAll CAPACITY ops xs empty (homeSlots_empty CAPACITY ops) i p h

/-- C17: in a state reached from the empty Dictionary by insert calls (`CAPACITY` a
constant of type `unsigned int`), if insert of a record `r` that is equal to itself
returns normally, the get of `r` right after it returns `r`. -/
theorem C17_immediate_round_trip {α : Type} (CAPACITY : Nat) (ops : ProfileOps α)
    (hC : CAPACITY < UINT_RANGE) (xs : List α) (r : α) (hrefl : ops.eq r r = true)
    (hok : (insert CAPACITY ops (insertAll CAPACITY ops empty xs) r).2 = .ok ()) :
    get CAPACITY ops (insert CAPACITY ops (insertAll CAPACITY ops empty xs) r).1 r = .ok r := by
  have hinv := inv_insertAll CAPACITY ops hC xs empty (inv_empty CAPACITY)
  generalize insertAll CAPACITY ops empty xs = d at *
  have hminv := inv_materialize CAPACITY d hinv
  rcases insert_cases CAPACITY ops d r with ⟨e, he⟩ | ⟨start, t, hne, hh, ht, _, hlt, he⟩
  · rw [he] at hok
    cases hok
  · rw [he]
    obtain ⟨hpos, _⟩ := hashFunction_lt hh
    have hle := hminv.count_le
    have hcount : ((materialize CAPACITY d).elementCount + 1) % UINT_RANGE ≠ 0 := by
      rw [Nat.mod_eq_of_lt (by omega)]
      omega
    have hcell : (t.set start (some r))[start]? = some (some r) := by
      rw [List.getElem?_set]
      simp only [if_true, hlt]
    obtain ⟨fuel, hfuel⟩ : ∃ fuel, CAPACITY = fuel + 1 := ⟨CAPACITY - 1, by omega⟩
    have hloop : getLoop CAPACITY ops (t.set start (some r)) start r CAPACITY 0 0 = .ok r := by
      conv => lhs; arg 6; rw [hfuel]
      simp only [getLoop, probeIndex_zero hh, hcell, hrefl, if_true]
    unfold get
    simp only [hcount, if_false, hh, hloop]

/-! ## The concrete scenarios for hashing, probing and printing (`CAPACITY = 17`) -/

/-- C11 (witness): with `CAPACITY = 17` the key "160" has the value 160 and hashes to
10, the key "336" has the value 336 and hashes to 4. -/
theorem C11_hash_value_witness :
    (keyValue "160" = 160 ∧ keyValue "336" = 336) ∧
    (hashFunction 17 "160" = .ok ((keyValue "160" / 16) % 17) ∧
      0 ≤ (keyValue "160" / 16) % 17 ∧ (keyValue "160" / 16) % 17 < 17) ∧
    (hashFunction 17 "336" = .ok ((keyValue "336" / 16) % 17) ∧
      0 ≤ (keyValue "336" / 16) % 17 ∧ (keyValue "336" / 16) % 17 < 17) ∧
    hashFunction 17 "160" = .ok 10 ∧ hashFunction 17 "336" = .ok 4 :=
  ⟨⟨by simp [keyValue, Nat.ofDigits], by simp [keyValue, Nat.ofDigits]⟩,
    C11_hash_value 17 "160" (by decide) (by decide) (by decide) (by decide)
      (by simp [keyValue, Nat.ofDigits, ULONG_RANGE]),
    C11_hash_value 17 "336" (by decide) (by decide) (by decide) (by decide)
      (by simp [keyValue, Nat.ofDigits, ULONG_RANGE]),
    by decide, by decide⟩

/-- C13 (witness): with `CAPACITY = 17` and `p160` in cell 10, the loop of
`insert(p432)`, which starts at index 10, stops after fewer than 17 collisions. -/
theorem C13_loop_finds_cell_witness :
    ((insertAll 17 profileOps empty [p160]).elementCount ≠ 17 ∧
      hashFunction 17 (profileOps.getUserName p432) = .ok 10 ∧
      (materialize 17 (insertAll 17 profileOps empty [p160])).hashTable = some t160) ∧
    ∃ k, k < 17 ∧
      (∀ j, j < k →
        ∃ p, t160[(10 + j) % 17]? = some (some p) ∧ profileOps.eq p p432 = false) ∧
      ((t160[(10 + k) % 17]? = some none ∧
          insertLoop 17 profileOps t160 10 p432 17 0 0 = .ok ()) ∨
        (∃ p, t160[(10 + k) % 17]? = some (some p) ∧ profileOps.eq p p432 = true ∧
          insertLoop 17 profileOps t160 10 p432 17 0 0 = .error .elementAlreadyExists)) :=
  ⟨⟨by decide, by decide, by decide⟩,
    (C13_loop_finds_cell 17 profileOps (by decide) [p160] p432).2 10 t160 (by decide)
      (by decide) (by decide)⟩

/-- C14 (witness): with `CAPACITY = 17`, the array holding `p160` in cell 10 and the
record `p432`, whose key hashes to 10. -/
theorem C14_probe_bound_witness :
    (0 < 17 ∧ 17 ≤ 2147483648 ∧ stoul (profileOps.getUserName p432) = .ok 432) ∧
    ∃ start, hashFunction 17 (profileOps.getUserName p432) = .ok start ∧
      (insertLoop 17 profileOps t160 start p432 17 0 0 ≠ .error .fuelExhausted ∧
        ∃ n, 0 < n ∧ n ≤ 17 ∧
          (insertLoopTrace 17 profileOps t160 start p432 17 0 0).2 = probeSequence 17 start n) ∧
      (getLoop 17 profileOps t160 start p432 17 0 0 ≠ .error .fuelExhausted ∧
        ∃ n, 0 < n ∧ n ≤ 17 ∧
          (getLoopTrace 17 profileOps t160 start p432 17 0 0).2 = probeSequence 17 start n) ∧
      ∀ n idx, idx ∈ probeSequence 17 start n → idx < 17 :=
  ⟨⟨by decide, by decide, by decide⟩,
    C14_probe_bound 17 profileOps (by decide) (by decide) t160 p432 ⟨432, by decide⟩⟩

/-- C15 (the code at the failing input): with `CAPACITY = 17`, after `insert(p160)` and
`insert(p432)` have both returned normally, `printDictionary` writes an empty line, a
summary line that reports 2 elements, and one record line only. -/
theorem C15_summary_reports_more_than_printed :
    (insert 17 profileOps empty p160).2 = .ok () ∧
    (insert 17 profileOps d160 p432).2 = .ok () ∧
    (insert 17 profileOps d160 p432).1 = d160_432 ∧
    printDictionary 17 profileOps d160_432 =
      .ok ["", "Printing the Dictionary with 2 elements: ", "HashTable[10] = 432 second"] ∧
    summaryLine (getElementCount d160_432) = "Printing the Dictionary with 2 elements: " ∧
    cellLine profileOps 10 p432 = "HashTable[10] = 432 second" := by
  decide

/-- C16 (witness): after `insert(p160)` and `insert(p336)` with `CAPACITY = 17`, cell 4
holds `p336`, whose key hashes to 4. -/
theorem C16_home_slot_witness :
    occupant (insertAll 17 profileOps empty [p160, p336]) 4 = some p336 ∧
    hashFunction 17 (profileOps.getUserName p336) = .ok 4 :=
  ⟨by decide, C16_home_slot 17 profileOps [p160, p336] 4 p336 (by decide)⟩

/-- C17 (witness): with `CAPACITY = 17`, after `insert(p160)` the call `insert(p336)`
returns normally and the get of `p336` right after it returns `p336`. -/
theorem C17_immediate_round_trip_witness :
    (profileOps.eq p336 p336 = true ∧
      (insert 17 profileOps (insertAll 17 profileOps empty [p160]) p336).2 = .ok ()) ∧
    get 17 profileOps (insert 17 profileOps (insertAll 17 profileOps empty [p160]) p336).1 p336
      = .ok p336 :=
  ⟨⟨by decide, by decide⟩,
    C17_immediate_round_trip 17 profileOps (by decide) [p160] p336 (by decide) (by decide)⟩

end Dictionary
